import Mathlib

set_option maxHeartbeats 1000000

/-!
Verification development for the asynchronous results merger
(`src/mongo/s/query/async_results_merger.cpp`).

The state machine is shallowly embedded: `ARMState` carries the engine
fields (`_remotes`, `_lifecycleState`, `_eofNext`, `_status`,
`_gettingFromRemote`, `_mergeQueue`, `_currentEvent`,
`_killCursorsScheduledEvent`) together with a small model of the task
executor (event counter, signalled events, dispatched remote commands).
Documents are modelled by their payload plus the optional `$sortKey`
field value; `woCompareKeys` models `BSONObj::woCompare` on sort keys
under an `Ordering` derived from the sort pattern, with
`considerFieldName = false`.
-/

instance {ε α : Type} [DecidableEq ε] [DecidableEq α] : DecidableEq (Except ε α) := fun x y =>
  match x, y with
  | .error a, .error b =>
    if h : a = b then isTrue (by rw [h]) else isFalse (by simp [h])
  | .error _, .ok _ => isFalse (by simp)
  | .ok _, .error _ => isFalse (by simp)
  | .ok a, .ok b =>
    if h : a = b then isTrue (by rw [h]) else isFalse (by simp [h])

/-- Tailable mode of the cursor parameters (`TailableMode`). -/
inductive TailableMode
  | kNormal
  | kTailable
  | kTailableAndAwaitData
deriving DecidableEq, Repr

/-- Lifecycle of the merger (`LifecycleState`). -/
inductive LifecycleState
  | kAlive
  | kKillStarted
  | kKillComplete
deriving DecidableEq, Repr

/-- Error codes used by the merger (a representative subset of `ErrorCodes`). -/
inductive ErrorCode
  | internalError
  | badValue
  | illegalOperation
  | hostUnreachable
  | notMasterError
  | shutdownInProgress
  | unknownError
deriving DecidableEq, Repr

/-- A `Status`: OK or an error code. -/
inductive Status
  | ok
  | error (code : ErrorCode)
deriving DecidableEq, Repr

/-- `Status::isOK()`. -/
def Status.isOK : Status → Bool
  | .ok => true
  | .error _ => false

/-- Maximum number of retries for network and replication notMaster errors
(per host), from the anonymous namespace of the source file. -/
def kMaxNumFailedHostRetryAttempts : Nat := 3

/-- Modelled from the spec: the class of retryable errors (network transport
or leadership change) referred to by the retry policy.  The source declares
the retry cap but contains no code consulting this predicate. -/
def isRetriableError : ErrorCode → Bool
  | .hostUnreachable => true
  | .notMasterError => true
  | _ => false

/-- A document in a cursor batch: an opaque payload plus the value of the
`$sortKey` field.  `sortKey = none` models a missing field or a field whose
type is not `BSONType::Object`; `sortKey = some ks` models an Object value
whose elements are the key fields in order. -/
structure BSONDoc where
  payload : Nat
  sortKey : Option (List Int)
deriving DecidableEq, Repr

/-- Placeholder document (used only for out-of-range reads, which the
source rules out by `invariant`s). -/
def dummyDoc : BSONDoc := { payload := 0, sortKey := none }

/-- The sort-key object of a document (`.Obj()` in the comparator). -/
def docKey (d : BSONDoc) : List Int := d.sortKey.getD []

/-- Three-way comparison of integers. -/
def intCmp (a b : Int) : Ordering :=
  if a < b then .lt else if b < a then .gt else .eq

/-- Three-way comparison of one key field under a sort direction: a negative
direction in the sort pattern flips the comparison (`Ordering::descending`). -/
def intCmpD (dir : Int) (a b : Int) : Ordering :=
  if dir < 0 then (intCmp a b).swap else intCmp a b

/-- `BSONObj::woCompare` on two sort-key objects under the sort pattern
`dirs` (one direction per key field), ignoring field names.  When one key
runs out of fields first it compares as smaller, independent of direction,
as in the source. -/
def woCompareKeys (dirs a b : List Int) : Ordering :=
  match a, b with
  | [], [] => .eq
  | [], _ :: _ => .lt
  | _ :: _, [] => .gt
  | x :: xs, y :: ys =>
    match intCmpD (dirs.headD 1) x y with
    | .eq => woCompareKeys dirs.tail xs ys
    | o => o

/-- Key order used throughout: `a` does not compare after `b`. -/
def keyLE (dirs a b : List Int) : Prop := woCompareKeys dirs a b ≠ .gt

instance (dirs a b : List Int) : Decidable (keyLE dirs a b) := by
  unfold keyLE; infer_instance

/-- Order on documents induced by their sort keys. -/
def docLE (dirs : List Int) (a b : BSONDoc) : Prop := keyLE dirs (docKey a) (docKey b)

instance (dirs : List Int) (a b : BSONDoc) : Decidable (docLE dirs a b) := by
  unfold docLE; infer_instance

/-- Per-shard cursor state (`AsyncResultsMerger::RemoteCursorData`).  The
host and namespace are immutable and irrelevant to the verified claims, so
they are omitted; the callback handle is modelled by its validity bit. -/
structure RemoteCursorData where
  cursorId : Int
  docBuffer : List BSONDoc
  cbHandleValid : Bool
  fetchedCount : Nat
  status : Status
deriving DecidableEq, Repr

/-- `RemoteCursorData::hasNext()`. -/
def RemoteCursorData.hasNext (r : RemoteCursorData) : Bool := !r.docBuffer.isEmpty

/-- `RemoteCursorData::exhausted()`. -/
def RemoteCursorData.exhausted (r : RemoteCursorData) : Bool := decide (r.cursorId = 0)

/-- Placeholder remote (used only for out-of-range reads). -/
def dummyRemote : RemoteCursorData :=
  { cursorId := 0, docBuffer := [], cbHandleValid := false, fetchedCount := 0, status := .ok }

/-- The engine configuration (`ClusterClientCursorParams`), restricted to the
fields the merger consults.  `sort` is the list of sort directions; `[]`
models an empty sort pattern (`sort.isEmpty()`). -/
structure ClusterClientCursorParams where
  sort : List Int
  batchSize : Option Nat
  tailableMode : TailableMode
  isAllowPartialResults : Bool
deriving DecidableEq, Repr

/-- A remote command dispatched through the executor. -/
inductive RemoteCommand
  | getMore (cursorId : Int) (batchSize : Option Nat)
  | killCursors (cursorId : Int)
deriving DecidableEq, Repr

/-- Model of the `TaskExecutor` surface the merger uses: fresh-event
generation, signalled events, and the list of dispatched remote commands. -/
structure Executor where
  shuttingDown : Bool
  nextEventId : Nat
  signalled : List Nat
  scheduledCommands : List RemoteCommand
deriving DecidableEq, Repr

/-- `TaskExecutor::makeEvent`, failing with a shutdown error when the
executor is shutting down. -/
def makeEvent (ex : Executor) : Except Status (Nat × Executor) :=
  if ex.shuttingDown then .error (.error .shutdownInProgress)
  else .ok (ex.nextEventId, { ex with nextEventId := ex.nextEventId + 1 })

/-- `TaskExecutor::signalEvent`. -/
def signalEvent (ex : Executor) (e : Nat) : Executor :=
  { ex with signalled := ex.signalled ++ [e] }

/-- `TaskExecutor::scheduleRemoteCommand`: records the dispatched command. -/
def scheduleRemoteCommand (ex : Executor) (cmd : RemoteCommand) : Except Status Executor :=
  if ex.shuttingDown then .error (.error .shutdownInProgress)
  else .ok { ex with scheduledCommands := ex.scheduledCommands ++ [cmd] }

/-- The merger state (`AsyncResultsMerger`'s fields plus the executor
model).  Event handles are `Option Nat` (`none` is an invalid handle). -/
structure ARMState where
  params : ClusterClientCursorParams
  remotes : List RemoteCursorData
  lifecycleState : LifecycleState
  eofNext : Bool
  status : Status
  gettingFromRemote : Nat
  mergeQueue : List Nat
  currentEvent : Option Nat
  killCursorsScheduledEvent : Option Nat
  executor : Executor
deriving DecidableEq, Repr

/-- Read `_remotes[i]`. -/
def getRemote (s : ARMState) (i : Nat) : RemoteCursorData := s.remotes.getD i dummyRemote

/-- Write `_remotes[i]`. -/
def setRemote (s : ARMState) (i : Nat) (r : RemoteCursorData) : ARMState :=
  { s with remotes := s.remotes.set i r }

/-- `AsyncResultsMerger::_remotesExhausted`. -/
def remotesExhausted (s : ARMState) : Bool := s.remotes.all (·.exhausted)

/-- `AsyncResultsMerger::_haveOutstandingBatchRequests`. -/
def haveOutstandingBatchRequests (s : ARMState) : Bool := s.remotes.any (·.cbHandleValid)

/-- `AsyncResultsMerger::_readySorted`. -/
def readySorted (s : ARMState) : Bool :=
  s.remotes.all (fun r => r.hasNext || r.exhausted)

/-- The loop body of `AsyncResultsMerger::_readyUnsorted`, threading the
`allExhausted` accumulator exactly as the source does. -/
def readyUnsortedLoop : List RemoteCursorData → Bool → Bool
  | [], allExhausted => allExhausted
  | r :: rest, allExhausted =>
    let allExhausted := if !r.exhausted then false else allExhausted
    if r.hasNext then true else readyUnsortedLoop rest allExhausted

/-- `AsyncResultsMerger::_readyUnsorted`. -/
def readyUnsorted (s : ARMState) : Bool := readyUnsortedLoop s.remotes true

/-- The error scan inside `_ready`: the status of the first remote whose
status is not OK. -/
def firstErrorStatus : List RemoteCursorData → Option Status
  | [] => none
  | r :: rest => if r.status.isOK then firstErrorStatus rest else some r.status

/-- `AsyncResultsMerger::_ready`, including its latch of `_status` from the
first failed remote.  Returns the readiness bit and the updated state. -/
def readyImpl (s : ARMState) : Bool × ARMState :=
  if s.lifecycleState ≠ .kAlive then (true, s)
  else if s.eofNext then (true, s)
  else
    match firstErrorStatus s.remotes with
    | some st => (true, { s with status := st })
    | none =>
      if s.params.sort ≠ [] then (readySorted s, s) else (readyUnsorted s, s)

/-- The readiness value alone. -/
def readyVal (s : ARMState) : Bool := (readyImpl s).1

/-- The sort key of the head of `_remotes[i].docBuffer`, read by the
`MergingComparator`. -/
def headDocKey (s : ARMState) (i : Nat) : List Int :=
  docKey ((getRemote s i).docBuffer.headD dummyDoc)

/-- Selection of the top of the merging priority queue: the element whose
head key compares smallest under `MergingComparator::operator()`, which
returns `woCompare(...) > 0`.  This models `std::priority_queue::top()`
(ties resolved to the earlier list entry). -/
def mergeQueueTopLoop (dirs : List Int) (key : Nat → List Int) : Nat → List Nat → Nat
  | best, [] => best
  | best, i :: rest =>
    mergeQueueTopLoop dirs key (if woCompareKeys dirs (key best) (key i) = .gt then i else best) rest

/-- Top of `_mergeQueue` (meaningful only when the queue is non-empty). -/
def queueTopOf (s : ARMState) : Nat :=
  match s.mergeQueue with
  | [] => 0
  | t :: rest => mergeQueueTopLoop s.params.sort (headDocKey s) t rest

/-- Result of `nextReady()` (`StatusWith<ClusterQueryResult>`): an error
status, an empty result, or a document. -/
inductive NextResult
  | err (code : ErrorCode)
  | eof
  | doc (d : BSONDoc)
deriving DecidableEq, Repr

/-- `AsyncResultsMerger::_nextReadySorted`.  The empty-buffer inner case is
guarded by `invariant(!docBuffer.empty())` in the source and is unreachable
under the queue invariant; it is modelled as an empty result. -/
def nextReadySorted (s : ARMState) : NextResult × ARMState :=
  match s.mergeQueue with
  | [] => (.eof, s)
  | _ :: _ =>
    let smallestRemote := queueTopOf s
    match (getRemote s smallestRemote).docBuffer with
    | [] => (.eof, s)
    | front :: restBuf =>
      let s1 := setRemote s smallestRemote { getRemote s smallestRemote with docBuffer := restBuf }
      let q := s.mergeQueue.erase smallestRemote
      let q := if restBuf.isEmpty then q else smallestRemote :: q
      (.doc front, { s1 with mergeQueue := q })

/-- The round-robin loop of `_nextReadyUnsorted`; the fuel argument models
`remotesAttempted < _remotes.size()`. -/
def nextReadyUnsortedLoop (s : ARMState) : Nat → NextResult × ARMState
  | 0 => (.eof, s)
  | fuel + 1 =>
    let i := s.gettingFromRemote
    match (getRemote s i).docBuffer with
    | front :: restBuf =>
      let s := setRemote s i { getRemote s i with docBuffer := restBuf }
      let s :=
        if s.params.tailableMode = .kTailable ∧ restBuf = [] then { s with eofNext := true } else s
      (.doc front, s)
    | [] =>
      let next := s.gettingFromRemote + 1
      let s := { s with gettingFromRemote := if next = s.remotes.length then 0 else next }
      nextReadyUnsortedLoop s fuel

/-- `AsyncResultsMerger::_nextReadyUnsorted`. -/
def nextReadyUnsorted (s : ARMState) : NextResult × ARMState :=
  nextReadyUnsortedLoop s s.remotes.length

/-- `AsyncResultsMerger::nextReady`. -/
def nextReady (s : ARMState) : NextResult × ARMState :=
  if s.lifecycleState ≠ .kAlive then (.err .illegalOperation, s)
  else
    match s.status with
    | .error c => (.err c, s)
    | .ok =>
      if s.eofNext then (.eof, { s with eofNext := false })
      else if s.params.sort ≠ [] then nextReadySorted s else nextReadyUnsorted s

/-- The adjusted batch size computed by `_askForNextBatch`: if a batch-size
cap is configured and exceeds the fetched count, request the remaining
documents only; otherwise request the configured value unchanged. -/
def adjustedBatchSize (batchSize : Option Nat) (fetchedCount : Nat) : Option Nat :=
  match batchSize with
  | some b => if b > fetchedCount then some (b - fetchedCount) else some b
  | none => none

/-- `AsyncResultsMerger::_askForNextBatch`: dispatch a getMore carrying the
adjusted batch size and mark the callback handle valid; on scheduling
failure return the error with the state unchanged. -/
def askForNextBatch (s : ARMState) (remoteIndex : Nat) : Status × ARMState :=
  let remote := getRemote s remoteIndex
  let cmd := RemoteCommand.getMore remote.cursorId
    (adjustedBatchSize s.params.batchSize remote.fetchedCount)
  match scheduleRemoteCommand s.executor cmd with
  | .error st => (st, s)
  | .ok ex =>
    (.ok, setRemote { s with executor := ex } remoteIndex { remote with cbHandleValid := true })

/-- The per-document loop of `_addBatchToBuffer`: push documents in order,
incrementing the fetched count, but abort with `InternalError` at the first
document whose sort-key field is missing or not an Object when a sort is
configured. -/
def addBatchToBufferLoop (sort : List Int) (r : RemoteCursorData) :
    List BSONDoc → Bool × RemoteCursorData
  | [] => (true, r)
  | obj :: rest =>
    if !sort.isEmpty && !obj.sortKey.isSome then
      (false, { r with status := .error .internalError })
    else
      addBatchToBufferLoop sort
        { r with docBuffer := r.docBuffer ++ [obj], fetchedCount := r.fetchedCount + 1 } rest

/-- `AsyncResultsMerger::_addBatchToBuffer`. -/
def addBatchToBuffer (s : ARMState) (remoteIndex : Nat) (batch : List BSONDoc) :
    Bool × ARMState :=
  match addBatchToBufferLoop s.params.sort (getRemote s remoteIndex) batch with
  | (false, r) => (false, setRemote s remoteIndex r)
  | (true, r) =>
    let s := setRemote s remoteIndex r
    if !s.params.sort.isEmpty && !batch.isEmpty then
      (true, { s with mergeQueue := remoteIndex :: s.mergeQueue })
    else (true, s)

/-- A parsed cursor response (`CursorResponse`). -/
structure CursorResponse where
  cursorId : Int
  batch : List BSONDoc
deriving DecidableEq, Repr

/-- `AsyncResultsMerger::_parseCursorResponse`: a non-zero cursor id that
differs from the established id is a `BadValue` error. -/
def parseCursorResponse (resp : CursorResponse) (remote : RemoteCursorData) :
    Except Status CursorResponse :=
  if resp.cursorId ≠ 0 ∧ remote.cursorId ≠ resp.cursorId then .error (.error .badValue)
  else .ok resp

/-- `AsyncResultsMerger::_cleanUpFailedBatch`: record the failure in the
remote's status; with `allowPartialResults` the error is swallowed by
resetting the status to OK, clearing the buffer and zeroing the cursor id. -/
def cleanUpFailedBatch (s : ARMState) (st : Status) (remoteIndex : Nat) : ARMState :=
  let remote := getRemote s remoteIndex
  let remote := { remote with status := st }
  let remote :=
    if s.params.isAllowPartialResults then
      { remote with status := .ok, docBuffer := [], cursorId := 0 }
    else remote
  setRemote s remoteIndex remote

/-- The executor-delivered response for a batch request. -/
inductive CbResponse
  | failed (st : Status)
  | succeeded (resp : CursorResponse)
deriving DecidableEq, Repr

/-- `AsyncResultsMerger::_processBatchResults`. -/
def processBatchResults (s : ARMState) (response : CbResponse) (remoteIndex : Nat) : ARMState :=
  match response with
  | .failed st => cleanUpFailedBatch s st remoteIndex
  | .succeeded data =>
    match parseCursorResponse data (getRemote s remoteIndex) with
    | .error st => cleanUpFailedBatch s st remoteIndex
    | .ok cursorResponse =>
      let s := setRemote s remoteIndex
        { getRemote s remoteIndex with cursorId := cursorResponse.cursorId }
      match addBatchToBuffer s remoteIndex cursorResponse.batch with
      | (false, s) => s
      | (true, s) =>
        let remote := getRemote s remoteIndex
        if s.params.tailableMode = .kTailable ∧ remote.hasNext = false then
          { s with eofNext := true }
        else if remote.hasNext = false ∧ remote.exhausted = false then
          match askForNextBatch s remoteIndex with
          | (st, s) => setRemote s remoteIndex { getRemote s remoteIndex with status := st }
        else s

/-- `AsyncResultsMerger::_signalCurrentEventIfReady`. -/
def signalCurrentEventIfReady (s : ARMState) : ARMState :=
  match readyImpl s with
  | (r, s) =>
    match s.currentEvent with
    | some e =>
      if r then { s with executor := signalEvent s.executor e, currentEvent := none } else s
    | none => s

/-- The dispatch loop of `_scheduleKillCursors`: a killCursors command for
every remote whose status is OK, whose cursor id is non-zero and that is not
exhausted; scheduling failures are ignored. -/
def scheduleKillCursorsLoop (ex : Executor) : List RemoteCursorData → Executor
  | [] => ex
  | r :: rest =>
    let ex :=
      if r.status.isOK && (!decide (r.cursorId = 0)) && !r.exhausted then
        match scheduleRemoteCommand ex (.killCursors r.cursorId) with
        | .ok ex2 => ex2
        | .error _ => ex
      else ex
    scheduleKillCursorsLoop ex rest

/-- `AsyncResultsMerger::_scheduleKillCursors`. -/
def scheduleKillCursors (s : ARMState) : ARMState :=
  { s with executor := scheduleKillCursorsLoop s.executor s.remotes }

/-- `AsyncResultsMerger::_cleanUpKilledBatch`. -/
def cleanUpKilledBatch (s : ARMState) : ARMState :=
  if haveOutstandingBatchRequests s then s
  else
    let s :=
      match s.killCursorsScheduledEvent with
      | some ev =>
        let s := scheduleKillCursors s
        { s with executor := signalEvent s.executor ev }
      | none => s
    { s with lifecycleState := .kKillComplete }

/-- `AsyncResultsMerger::_handleBatchResponse`. -/
def handleBatchResponse (s : ARMState) (cbData : CbResponse) (remoteIndex : Nat) : ARMState :=
  let s := setRemote s remoteIndex { getRemote s remoteIndex with cbHandleValid := false }
  if s.lifecycleState ≠ .kAlive then
    cleanUpKilledBatch (signalCurrentEventIfReady s)
  else
    signalCurrentEventIfReady (processBatchResults s cbData remoteIndex)

/-- The scheduling loop of `nextEvent` over remote indices. -/
def nextEventLoop (s : ARMState) : List Nat → Status × ARMState
  | [] => (.ok, s)
  | i :: rest =>
    let remote := getRemote s i
    if !remote.status.isOK then (remote.status, s)
    else if !remote.hasNext && !remote.exhausted && !remote.cbHandleValid then
      match askForNextBatch s i with
      | (st, s2) => if st.isOK then nextEventLoop s2 rest else (st, s2)
    else nextEventLoop s rest

/-- `AsyncResultsMerger::nextEvent`. -/
def nextEvent (s : ARMState) : Except Status Nat × ARMState :=
  if s.lifecycleState ≠ .kAlive then (.error (.error .illegalOperation), s)
  else if s.currentEvent.isSome then (.error (.error .illegalOperation), s)
  else
    match nextEventLoop s (List.range s.remotes.length) with
    | (st, s) =>
      if !st.isOK then (.error st, s)
      else
        match makeEvent s.executor with
        | .error st => (.error st, s)
        | .ok (ev, ex) =>
          let s := { s with executor := ex, currentEvent := some ev }
          (.ok ev, signalCurrentEventIfReady s)

/-- `AsyncResultsMerger::kill`.  Cancellation of in-flight callbacks has no
observable effect in this model.  `makeEvent` failures are shutdown errors,
matching `fassertStatusOK` on all other codes. -/
def kill (s : ARMState) : Option Nat × ARMState :=
  match s.killCursorsScheduledEvent with
  | some ev => (some ev, s)
  | none =>
    let s := { s with lifecycleState := .kKillStarted }
    match makeEvent s.executor with
    | .error _ =>
      if haveOutstandingBatchRequests s then (none, s)
      else (none, { s with lifecycleState := .kKillComplete })
    | .ok (ev, ex) =>
      let s := { s with executor := ex, killCursorsScheduledEvent := some ev }
      if haveOutstandingBatchRequests s then (some ev, s)
      else
        let s := scheduleKillCursors s
        let s := { s with lifecycleState := .kKillComplete }
        (some ev, { s with executor := signalEvent s.executor ev })

/-! Basic lemmas about remote access. -/

theorem getRemote_setRemote_self (s : ARMState) (i : Nat) (r : RemoteCursorData)
    (hi : i < s.remotes.length) : getRemote (setRemote s i r) i = r := by
  simp [getRemote, setRemote, List.getD, List.getElem?_set_self, hi]

theorem getRemote_setRemote_ne (s : ARMState) (i j : Nat) (r : RemoteCursorData)
    (hij : i ≠ j) : getRemote (setRemote s i r) j = getRemote s j := by
  simp [getRemote, setRemote, List.getD, List.getElem?_set_ne, hij]

theorem setRemote_remotes_length (s : ARMState) (i : Nat) (r : RemoteCursorData) :
    (setRemote s i r).remotes.length = s.remotes.length := by
  simp [setRemote]

/-! Lemmas about the readiness scans. -/

theorem firstErrorStatus_eq_none (rs : List RemoteCursorData)
    (h : ∀ r ∈ rs, r.status = .ok) : firstErrorStatus rs = none := by
  induction rs with
  | nil => rfl
  | cons r rest ih =>
    have hr : r.status = .ok := h r (by simp)
    simp only [firstErrorStatus, hr, Status.isOK, if_true]
    exact ih (fun x hx => h x (by simp [hx]))

theorem readyUnsortedLoop_spec (rs : List RemoteCursorData) (acc : Bool) :
    readyUnsortedLoop rs acc = true ↔
      (∃ r ∈ rs, r.hasNext = true) ∨ (acc = true ∧ ∀ r ∈ rs, r.exhausted = true) := by
  induction rs generalizing acc with
  | nil => simp [readyUnsortedLoop]
  | cons r rest ih =>
    simp only [readyUnsortedLoop]
    rcases hn : r.hasNext with _ | _
    · rcases he : r.exhausted with _ | _
      · simp [hn, he, ih]
      · simp [hn, he, ih]
    · simp [hn]

theorem readySorted_spec (s : ARMState) :
    readySorted s = true ↔ ∀ r ∈ s.remotes, r.hasNext = true ∨ r.exhausted = true := by
  simp [readySorted, List.all_eq_true, Bool.or_eq_true]

/-- C4: with an `Alive` lifecycle, `eofNext` unset and every remote's status
OK, sorted readiness holds iff every remote has a buffered head or is
exhausted, and unsorted readiness holds iff some remote has a buffered head
or all remotes are exhausted. -/
theorem c4_ready_characterization (s : ARMState)
    (h1 : s.lifecycleState = .kAlive) (h2 : s.eofNext = false)
    (h3 : ∀ r ∈ s.remotes, r.status = .ok) :
    (s.params.sort ≠ [] →
      (readyVal s = true ↔ ∀ r ∈ s.remotes, r.hasNext = true ∨ r.exhausted = true)) ∧
    (s.params.sort = [] →
      (readyVal s = true ↔
        (∃ r ∈ s.remotes, r.hasNext = true) ∨ ∀ r ∈ s.remotes, r.exhausted = true)) := by
  have hfe := firstErrorStatus_eq_none s.remotes h3
  constructor
  · intro hs
    simp [readyVal, readyImpl, h1, h2, hfe, hs, readySorted_spec]
  · intro hs
    simp [readyVal, readyImpl, h1, h2, hfe, hs, readyUnsorted, readyUnsortedLoop_spec]

def c4DocA : BSONDoc := { payload := 3, sortKey := some [3] }

def c4Remote : RemoteCursorData :=
  { cursorId := 11, docBuffer := [c4DocA], cbHandleValid := false, fetchedCount := 1,
    status := .ok }

def c4State : ARMState :=
  { params :=
      { sort := [1], batchSize := none, tailableMode := .kNormal, isAllowPartialResults := false },
    remotes := [c4Remote], lifecycleState := .kAlive, eofNext := false, status := .ok,
    gettingFromRemote := 0, mergeQueue := [0], currentEvent := none,
    killCursorsScheduledEvent := none,
    executor :=
      { shuttingDown := false, nextEventId := 0, signalled := [], scheduledCommands := [] } }

/-- Witness for C4 at a concrete sorted one-remote state. -/
theorem c4_ready_characterization_witness :
    readyVal c4State = true ↔
      ∀ r ∈ c4State.remotes, r.hasNext = true ∨ r.exhausted = true :=
  (c4_ready_characterization c4State rfl rfl (by decide)).1 (by decide)

/-! Claim C1: adjusted batch size. -/

def c1State : ARMState :=
  { params :=
      { sort := [], batchSize := some 2, tailableMode := .kNormal,
        isAllowPartialResults := false },
    remotes :=
      [{ cursorId := 7, docBuffer := [], cbHandleValid := false, fetchedCount := 2,
         status := .ok }],
    lifecycleState := .kAlive, eofNext := false, status := .ok, gettingFromRemote := 0,
    mergeQueue := [], currentEvent := none, killCursorsScheduledEvent := none,
    executor :=
      { shuttingDown := false, nextEventId := 0, signalled := [], scheduledCommands := [] } }

/-- C1 (counterexample): with cap `B = 2` and `fetched = 2`, the follow-up
built by `_askForNextBatch` requests batch size 2 (the unmodified cap), not
`max(B - fetched, 1) = 1` as the claim states. -/
theorem c1_batch_size_counterexample :
    c1State.params.batchSize = some 2 ∧
    (getRemote c1State 0).fetchedCount = 2 ∧
    (askForNextBatch c1State 0).2.executor.scheduledCommands
      = [RemoteCommand.getMore 7 (some 2)] ∧
    some 2 ≠ some (max (2 - 2) 1) := by decide

/-- C1 (amended): when `fetched < B` the requested size is
`max(B - fetched, 1) = B - fetched`; when `fetched ≥ B` the requested size
is the unmodified cap `B`.  Consequently a response of at most the requested
size keeps the delivered count within the cap whenever it was below the cap
before the request; and every successfully scheduled follow-up carries
exactly the adjusted batch size. -/
theorem c1_adjusted_batch_size (b f : Nat) :
    (f < b → adjustedBatchSize (some b) f = some (max (b - f) 1)) ∧
    (b ≤ f → adjustedBatchSize (some b) f = some b) ∧
    (∀ m n, f < b → adjustedBatchSize (some b) f = some m → n ≤ m → f + n ≤ b) ∧
    (∀ (s : ARMState) (i : Nat), (askForNextBatch s i).1 = .ok →
      (askForNextBatch s i).2.executor.scheduledCommands
        = s.executor.scheduledCommands ++
          [RemoteCommand.getMore (getRemote s i).cursorId
            (adjustedBatchSize s.params.batchSize (getRemote s i).fetchedCount)]) := by
  refine ⟨?_, ?_, ?_, ?_⟩
  · intro h
    have hm : max (b - f) 1 = b - f := by omega
    simp [adjustedBatchSize, h, hm]
  · intro h
    simp [adjustedBatchSize, Nat.not_lt.mpr h]
  · intro m n hf hm hn
    simp [adjustedBatchSize, hf] at hm
    omega
  · intro s i hok
    unfold askForNextBatch at hok ⊢
    unfold scheduleRemoteCommand at hok ⊢
    rcases hsd : s.executor.shuttingDown with _ | _
    · simp [hsd, setRemote]
    · simp [hsd] at hok

/-- Witness for C1's amended theorem at `B = 3`, `fetched = 1`. -/
theorem c1_adjusted_batch_size_witness :
    adjustedBatchSize (some 3) 1 = some (max (3 - 1) 1) ∧ 1 + 2 ≤ 3 :=
  ⟨(c1_adjusted_batch_size 3 1).1 (by decide),
   (c1_adjusted_batch_size 3 1).2.2.1 2 2 (by decide) (by decide) (by decide)⟩

/-! Claim C2: abort of a batch append on a bad sort key. -/

def c2GoodDoc : BSONDoc := { payload := 1, sortKey := some [5] }

def c2BadDoc : BSONDoc := { payload := 2, sortKey := none }

def c2State : ARMState :=
  { c1State with params := { c1State.params with sort := [1] } }

/-- C2 (counterexample): appending the batch `[c2GoodDoc, c2BadDoc]` under a
configured sort sets the remote's status to `InternalError` and aborts, yet
the document preceding the offending one is retained in the buffer, so the
append is not atomic as claimed. -/
theorem c2_partial_batch_retained :
    c2State.params.sort ≠ [] ∧
    c2BadDoc.sortKey = none ∧
    (addBatchToBuffer c2State 0 [c2GoodDoc, c2BadDoc]).1 = false ∧
    (getRemote (addBatchToBuffer c2State 0 [c2GoodDoc, c2BadDoc]).2 0).status
      = .error .internalError ∧
    (getRemote (addBatchToBuffer c2State 0 [c2GoodDoc, c2BadDoc]).2 0).docBuffer
      = [c2GoodDoc] := by decide

theorem addBatchToBufferLoop_abort (sort : List Int) (hs : sort ≠ [])
    (pre : List BSONDoc) (bad : BSONDoc) (rest : List BSONDoc) (r : RemoteCursorData)
    (hpre : ∀ d ∈ pre, d.sortKey.isSome = true) (hbad : bad.sortKey = none) :
    addBatchToBufferLoop sort r (pre ++ bad :: rest)
      = (false,
         { r with docBuffer := r.docBuffer ++ pre,
                  fetchedCount := r.fetchedCount + pre.length,
                  status := .error .internalError }) := by
  induction pre generalizing r with
  | nil =>
    have hse : sort.isEmpty = false := by
      simpa [List.isEmpty_iff] using hs
    simp [addBatchToBufferLoop, hse, hbad]
  | cons d pre ih =>
    have hd : d.sortKey.isSome = true := hpre d (by simp)
    have hrec := ih { r with docBuffer := r.docBuffer ++ [d], fetchedCount := r.fetchedCount + 1 }
      (fun x hx => hpre x (by simp [hx]))
    simp only [List.cons_append, addBatchToBufferLoop, hd, Bool.not_true, Bool.and_false,
      Bool.false_eq_true, if_false, List.append_eq]
    rw [hrec]
    simp [RemoteCursorData.mk.injEq, List.append_assoc]
    omega

/-- C2 (amended): when a sort is configured and a batch contains a document
whose sort-key field is missing or not an Object, the append sets the
remote's status to `InternalError` and aborts at the offending document:
the documents preceding it are retained in the buffer (with `fetchedCount`
incremented for each), the offending document and all later ones are
discarded, and the priority queue is not updated. -/
theorem c2_append_abort (s : ARMState) (i : Nat) (pre : List BSONDoc) (bad : BSONDoc)
    (rest : List BSONDoc) (hsort : s.params.sort ≠ [])
    (hpre : ∀ d ∈ pre, d.sortKey.isSome = true) (hbad : bad.sortKey = none) :
    addBatchToBuffer s i (pre ++ bad :: rest)
      = (false, setRemote s i
          { getRemote s i with
              docBuffer := (getRemote s i).docBuffer ++ pre,
              fetchedCount := (getRemote s i).fetchedCount + pre.length,
              status := .error .internalError }) ∧
    (addBatchToBuffer s i (pre ++ bad :: rest)).2.mergeQueue = s.mergeQueue := by
  have hl := addBatchToBufferLoop_abort s.params.sort hsort pre bad rest (getRemote s i)
    hpre hbad
  constructor
  · simp only [addBatchToBuffer, hl]
  · simp only [addBatchToBuffer, hl, setRemote]

/-- Witness for C2's amended theorem at the concrete aborting batch. -/
theorem c2_append_abort_witness :
    addBatchToBuffer c2State 0 [c2GoodDoc, c2BadDoc]
      = (false, setRemote c2State 0
          { getRemote c2State 0 with
              docBuffer := (getRemote c2State 0).docBuffer ++ [c2GoodDoc],
              fetchedCount := (getRemote c2State 0).fetchedCount + [c2GoodDoc].length,
              status := .error .internalError }) :=
  (c2_append_abort c2State 0 [c2GoodDoc] c2BadDoc [] (by decide) (by decide) (by decide)).1

/-! Claim C3: retry policy for retryable errors. -/

def c3State : ARMState := c1State

/-- C3 (code evaluation at the failing input): after a single retryable
failure (`HostUnreachable`, with zero consumed retries, well within the cap
of `kMaxNumFailedHostRetryAttempts = 3`), the response-handling path marks
the remote's status with the error terminally, the retry constant
notwithstanding, and the next `nextEvent` call returns that error instead
of re-arming a fetch for the remote. -/
theorem c3_no_retry_on_retryable_error :
    isRetriableError .hostUnreachable = true ∧
    kMaxNumFailedHostRetryAttempts = 3 ∧
    (getRemote (processBatchResults c3State (.failed (.error .hostUnreachable)) 0) 0).status
      = .error .hostUnreachable ∧
    (nextEvent (processBatchResults c3State (.failed (.error .hostUnreachable)) 0)).1
      = .error (.error .hostUnreachable) ∧
    (processBatchResults c3State (.failed (.error .hostUnreachable)) 0).executor.scheduledCommands
      = c3State.executor.scheduledCommands := by decide

/-! Claim C6: swallowing terminal errors under allowPartialResults. -/

/-- C6: with `allowPartialResults` set, failure handling leaves the remote
with an empty buffer, a zero cursor id (hence exhausted), an OK status and
no buffered head, and leaves the engine-level status untouched; such a
remote satisfies the per-remote readiness condition of both merge modes. -/
theorem c6_partial_results_swallow (s : ARMState) (st : Status) (i : Nat)
    (hp : s.params.isAllowPartialResults = true) (hi : i < s.remotes.length) :
    (getRemote (cleanUpFailedBatch s st i) i).docBuffer = [] ∧
    (getRemote (cleanUpFailedBatch s st i) i).cursorId = 0 ∧
    (getRemote (cleanUpFailedBatch s st i) i).status = .ok ∧
    (getRemote (cleanUpFailedBatch s st i) i).exhausted = true ∧
    (getRemote (cleanUpFailedBatch s st i) i).hasNext = false ∧
    ((getRemote (cleanUpFailedBatch s st i) i).hasNext
        || (getRemote (cleanUpFailedBatch s st i) i).exhausted) = true ∧
    (cleanUpFailedBatch s st i).status = s.status := by
  unfold cleanUpFailedBatch
  simp only [hp, if_true]
  rw [getRemote_setRemote_self s i _ hi]
  simp [RemoteCursorData.exhausted, RemoteCursorData.hasNext, setRemote]

def c6State : ARMState :=
  { c1State with
      params := { c1State.params with isAllowPartialResults := true },
      remotes :=
        [{ cursorId := 7, docBuffer := [c2GoodDoc], cbHandleValid := false,
           fetchedCount := 1, status := .ok }] }

/-- Witness for C6 at a concrete partial-results state. -/
theorem c6_partial_results_swallow_witness :
    (getRemote (cleanUpFailedBatch c6State (.error .hostUnreachable) 0) 0).docBuffer = [] ∧
    (getRemote (cleanUpFailedBatch c6State (.error .hostUnreachable) 0) 0).cursorId = 0 ∧
    (getRemote (cleanUpFailedBatch c6State (.error .hostUnreachable) 0) 0).status = .ok ∧
    (getRemote (cleanUpFailedBatch c6State (.error .hostUnreachable) 0) 0).exhausted = true ∧
    (getRemote (cleanUpFailedBatch c6State (.error .hostUnreachable) 0) 0).hasNext = false ∧
    ((getRemote (cleanUpFailedBatch c6State (.error .hostUnreachable) 0) 0).hasNext
        || (getRemote (cleanUpFailedBatch c6State (.error .hostUnreachable) 0) 0).exhausted)
      = true ∧
    (cleanUpFailedBatch c6State (.error .hostUnreachable) 0).status = c6State.status :=
  c6_partial_results_swallow c6State (.error .hostUnreachable) 0 rfl (by decide)

/-! Claim C8: order of checks in nextReady. -/

/-- C8: `nextReady` checks its conditions in a fixed order: a non-Alive
lifecycle yields `IllegalOperation`; otherwise a latched engine-level error
status is returned; otherwise a set `eofNext` flag is cleared and an empty
result returned; only then does extraction dispatch on the sorted or
unsorted path. -/
theorem c8_next_ready_order (s : ARMState) :
    (s.lifecycleState ≠ .kAlive → nextReady s = (.err .illegalOperation, s)) ∧
    (∀ c, s.lifecycleState = .kAlive → s.status = .error c → nextReady s = (.err c, s)) ∧
    (s.lifecycleState = .kAlive → s.status = .ok → s.eofNext = true →
      nextReady s = (.eof, { s with eofNext := false })) ∧
    (s.lifecycleState = .kAlive → s.status = .ok → s.eofNext = false →
      nextReady s = if s.params.sort ≠ [] then nextReadySorted s else nextReadyUnsorted s) := by
  refine ⟨?_, ?_, ?_, ?_⟩
  · intro h
    simp [nextReady, h]
  · intro c h1 h2
    simp [nextReady, h1, h2]
  · intro h1 h2 h3
    simp [nextReady, h1, h2, h3]
  · intro h1 h2 h3
    by_cases hs : s.params.sort = [] <;> simp [nextReady, h1, h2, h3, hs]

def c8State : ARMState := { c1State with status := .error .badValue }

/-- Witness for C8: a latched `BadValue` status is returned by the next
`nextReady` on an Alive engine. -/
theorem c8_next_ready_order_witness :
    nextReady c8State = (.err .badValue, c8State) :=
  (c8_next_ready_order c8State).2.1 .badValue rfl rfl

/-! Claim C9: kill is idempotent and signals once dispatch happened. -/

theorem scheduleKillCursorsLoop_fields (rs : List RemoteCursorData) (ex : Executor) :
    (scheduleKillCursorsLoop ex rs).signalled = ex.signalled ∧
    (scheduleKillCursorsLoop ex rs).shuttingDown = ex.shuttingDown ∧
    (scheduleKillCursorsLoop ex rs).nextEventId = ex.nextEventId := by
  induction rs generalizing ex with
  | nil => simp [scheduleKillCursorsLoop]
  | cons r rest ih =>
    simp only [scheduleKillCursorsLoop]
    rcases hc : (r.status.isOK && (!decide (r.cursorId = 0)) && !r.exhausted) with _ | _
    · simpa [hc] using ih ex
    · rcases hsd : ex.shuttingDown with _ | _
      · simpa [hc, scheduleRemoteCommand, hsd] using
          ih { ex with scheduledCommands := ex.scheduledCommands ++ [.killCursors r.cursorId] }
      · simpa [hc, scheduleRemoteCommand, hsd] using ih ex

theorem haveOutstandingBatchRequests_lifecycle (s : ARMState) (l : LifecycleState) :
    haveOutstandingBatchRequests { s with lifecycleState := l }
      = haveOutstandingBatchRequests s := rfl

/-- C9: a second (or later) `kill` returns the same event handle as the
first and dispatches no further commands; on the first call with no
outstanding batch requests and a live executor, the returned event is
signalled once the kill-cursors commands have been dispatched, while with
outstanding requests the event is returned unsignalled and nothing is
dispatched yet. -/
theorem c9_kill_idempotent (s : ARMState) :
    (∀ ev, s.killCursorsScheduledEvent = some ev → kill s = (some ev, s)) ∧
    ((kill (kill s).2).1 = (kill s).1 ∧
      (kill (kill s).2).2.executor.scheduledCommands
        = (kill s).2.executor.scheduledCommands) ∧
    (s.executor.shuttingDown = false → s.killCursorsScheduledEvent = none →
      haveOutstandingBatchRequests s = false →
      (kill s).1 = some s.executor.nextEventId ∧
      s.executor.nextEventId ∈ (kill s).2.executor.signalled) ∧
    (s.executor.shuttingDown = false → s.killCursorsScheduledEvent = none →
      haveOutstandingBatchRequests s = true →
      (∀ e ∈ s.executor.signalled, e < s.executor.nextEventId) →
      (kill s).1 = some s.executor.nextEventId ∧
      (kill s).2.executor.scheduledCommands = s.executor.scheduledCommands ∧
      s.executor.nextEventId ∉ (kill s).2.executor.signalled) := by
  refine ⟨?_, ?_, ?_, ?_⟩
  · intro ev hev
    simp [kill, hev]
  · rcases hev : s.killCursorsScheduledEvent with _ | ev
    · rcases hsd : s.executor.shuttingDown with _ | _ <;>
        rcases hob : s.remotes.any (·.cbHandleValid) with _ | _ <;>
          simp [kill, hev, makeEvent, hsd, hob, scheduleKillCursors, signalEvent,
            haveOutstandingBatchRequests, scheduleKillCursorsLoop_fields]
    · simp [kill, hev]
  · intro hsd hev hob
    simp only [haveOutstandingBatchRequests] at hob
    simp [kill, hev, makeEvent, hsd, hob, scheduleKillCursors, signalEvent,
      haveOutstandingBatchRequests, (scheduleKillCursorsLoop_fields s.remotes _).1]
  · intro hsd hev hob hfresh
    simp only [haveOutstandingBatchRequests] at hob
    have hne : s.executor.nextEventId ∉ s.executor.signalled := by
      intro hmem
      exact absurd (hfresh _ hmem) (by omega)
    simp [kill, hev, makeEvent, hsd, hob, haveOutstandingBatchRequests, hne]

def c9State : ARMState :=
  { params :=
      { sort := [], batchSize := none, tailableMode := .kNormal,
        isAllowPartialResults := false },
    remotes :=
      [{ cursorId := 9, docBuffer := [], cbHandleValid := false, fetchedCount := 0,
         status := .ok }],
    lifecycleState := .kAlive, eofNext := false, status := .ok, gettingFromRemote := 0,
    mergeQueue := [], currentEvent := none, killCursorsScheduledEvent := none,
    executor :=
      { shuttingDown := false, nextEventId := 4, signalled := [], scheduledCommands := [] } }

/-- Witness for C9 at a concrete state with no outstanding requests. -/
theorem c9_kill_idempotent_witness :
    (kill c9State).1 = some c9State.executor.nextEventId ∧
    c9State.executor.nextEventId ∈ (kill c9State).2.executor.signalled :=
  (c9_kill_idempotent c9State).2.2.1 rfl rfl (by decide)

/-! Claim C10: nextEvent never loses a wake-up. -/

/-- The fields of a remote that readiness inspects. -/
def remoteObs (r : RemoteCursorData) : Status × List BSONDoc × Int :=
  (r.status, r.docBuffer, r.cursorId)

theorem firstErrorStatus_congr (rs1 rs2 : List RemoteCursorData)
    (h : rs1.map remoteObs = rs2.map remoteObs) :
    firstErrorStatus rs1 = firstErrorStatus rs2 := by
  induction rs1 generalizing rs2 with
  | nil =>
    cases rs2 with
    | nil => rfl
    | cons r2 rest2 => simp at h
  | cons r rest ih =>
    cases rs2 with
    | nil => simp at h
    | cons r2 rest2 =>
      simp only [List.map_cons, List.cons.injEq, remoteObs, Prod.mk.injEq] at h
      obtain ⟨⟨hs, _, _⟩, ht⟩ := h
      simp only [firstErrorStatus, hs]
      rcases r2.status with _ | c <;> simp [Status.isOK, ih rest2 ht]

theorem exists_hasNext_congr (rs1 rs2 : List RemoteCursorData)
    (h : rs1.map remoteObs = rs2.map remoteObs) :
    ((∃ r ∈ rs1, r.hasNext = true) ↔ ∃ r ∈ rs2, r.hasNext = true) := by
  have key : ∀ rs : List RemoteCursorData,
      ((∃ r ∈ rs, r.hasNext = true) ↔
        ∃ p ∈ rs.map remoteObs, p.2.1.isEmpty = false) := by
    intro rs
    simp [List.mem_map, RemoteCursorData.hasNext, remoteObs]
  rw [key, key, h]

theorem all_exhausted_congr (rs1 rs2 : List RemoteCursorData)
    (h : rs1.map remoteObs = rs2.map remoteObs) :
    ((∀ r ∈ rs1, r.exhausted = true) ↔ ∀ r ∈ rs2, r.exhausted = true) := by
  have key : ∀ rs : List RemoteCursorData,
      ((∀ r ∈ rs, r.exhausted = true) ↔ ∀ p ∈ rs.map remoteObs, p.2.2 = 0) := by
    intro rs
    simp [List.mem_map, RemoteCursorData.exhausted, remoteObs]
  rw [key, key, h]

theorem all_headOrExhausted_congr (rs1 rs2 : List RemoteCursorData)
    (h : rs1.map remoteObs = rs2.map remoteObs) :
    ((∀ r ∈ rs1, r.hasNext = true ∨ r.exhausted = true) ↔
      ∀ r ∈ rs2, r.hasNext = true ∨ r.exhausted = true) := by
  have key : ∀ rs : List RemoteCursorData,
      ((∀ r ∈ rs, r.hasNext = true ∨ r.exhausted = true) ↔
        ∀ p ∈ rs.map remoteObs, p.2.1.isEmpty = false ∨ p.2.2 = 0) := by
    intro rs
    simp only [List.mem_map, RemoteCursorData.hasNext, RemoteCursorData.exhausted]
    constructor
    · rintro ha p ⟨r, hr, rfl⟩
      simpa [remoteObs] using ha r hr
    · intro ha r hr
      simpa [remoteObs] using ha (remoteObs r) ⟨r, hr, rfl⟩
  rw [key, key, h]

/-- Readiness depends only on the configuration, lifecycle, `eofNext` and
the per-remote status, buffer and cursor id. -/
theorem readyVal_congr (s1 s2 : ARMState)
    (hp : s1.params = s2.params) (hl : s1.lifecycleState = s2.lifecycleState)
    (he : s1.eofNext = s2.eofNext)
    (hr : s1.remotes.map remoteObs = s2.remotes.map remoteObs) :
    readyVal s1 = readyVal s2 := by
  have hsorted : readySorted s1 = readySorted s2 := by
    rw [Bool.eq_iff_iff, readySorted_spec, readySorted_spec]
    exact all_headOrExhausted_congr _ _ hr
  have hunsorted : readyUnsorted s1 = readyUnsorted s2 := by
    rw [Bool.eq_iff_iff]
    unfold readyUnsorted
    rw [readyUnsortedLoop_spec, readyUnsortedLoop_spec,
      exists_hasNext_congr _ _ hr, all_exhausted_congr _ _ hr]
  unfold readyVal readyImpl
  rw [hl, he, hp, firstErrorStatus_congr _ _ hr, hsorted, hunsorted]
  by_cases h1 : s2.lifecycleState ≠ .kAlive
  · simp [h1]
  · by_cases h2 : s2.eofNext = true
    · simp [h1, h2]
    · rcases hfe : firstErrorStatus s2.remotes with _ | st <;>
        by_cases h3 : s2.params.sort = [] <;> simp [h1, h2, hfe, h3]

theorem map_set_remoteObs (rs : List RemoteCursorData) (i : Nat) (r : RemoteCursorData)
    (h : remoteObs r = remoteObs (rs.getD i dummyRemote)) :
    (rs.set i r).map remoteObs = rs.map remoteObs := by
  induction rs generalizing i with
  | nil => simp
  | cons a rest ih =>
    cases i with
    | zero =>
      simp only [List.getD_cons_zero] at h
      simp [List.set, h]
    | succ n =>
      simp only [List.getD_cons_succ] at h
      simp only [List.set, List.map_cons]
      rw [ih n h]

theorem askForNextBatch_fields (s : ARMState) (i : Nat) :
    (askForNextBatch s i).2.params = s.params ∧
    (askForNextBatch s i).2.lifecycleState = s.lifecycleState ∧
    (askForNextBatch s i).2.eofNext = s.eofNext ∧
    (askForNextBatch s i).2.currentEvent = s.currentEvent ∧
    (askForNextBatch s i).2.remotes.map remoteObs = s.remotes.map remoteObs := by
  unfold askForNextBatch scheduleRemoteCommand
  rcases hsd : s.executor.shuttingDown with _ | _
  · simp only [hsd, Bool.false_eq_true, if_false, setRemote]
    exact ⟨trivial, trivial, trivial, trivial,
      map_set_remoteObs _ _ _ (by simp [remoteObs, getRemote])⟩
  · simp [hsd]

theorem nextEventLoop_preserves (l : List Nat) (s : ARMState)
    (h : (nextEventLoop s l).1 = .ok) :
    (nextEventLoop s l).2.params = s.params ∧
    (nextEventLoop s l).2.lifecycleState = s.lifecycleState ∧
    (nextEventLoop s l).2.eofNext = s.eofNext ∧
    (nextEventLoop s l).2.currentEvent = s.currentEvent ∧
    (nextEventLoop s l).2.remotes.map remoteObs = s.remotes.map remoteObs := by
  induction l generalizing s with
  | nil => exact ⟨rfl, rfl, rfl, rfl, rfl⟩
  | cons i rest ih =>
    simp only [nextEventLoop] at h ⊢
    rcases hst : (getRemote s i).status.isOK with _ | _
    · simp only [hst, Bool.not_false, if_true] at h
      rcases hs2 : (getRemote s i).status with _ | c
      · simp [hs2, Status.isOK] at hst
      · rw [hs2] at h
        simp at h
    · simp only [hst, Bool.not_true, Bool.false_eq_true, if_false] at h ⊢
      rcases hc : (!(getRemote s i).hasNext && !(getRemote s i).exhausted &&
          !(getRemote s i).cbHandleValid) with _ | _
      · simp only [hc, Bool.false_eq_true, if_false] at h ⊢
        exact ih s h
      · simp only [hc, if_true] at h ⊢
        rcases hres : (askForNextBatch s i).1 with _ | c
        · rw [hres] at h
          simp only [Status.isOK, if_true] at h ⊢
          obtain ⟨f1, f2, f3, f4, f5⟩ := askForNextBatch_fields s i
          obtain ⟨g1, g2, g3, g4, g5⟩ := ih _ h
          exact ⟨g1.trans f1, g2.trans f2, g3.trans f3, g4.trans f4, g5.trans f5⟩
        · rw [hres] at h
          simp [Status.isOK] at h

theorem readyImpl_fields (s : ARMState) :
    (readyImpl s).2.currentEvent = s.currentEvent ∧
    (readyImpl s).2.executor = s.executor := by
  unfold readyImpl
  by_cases h1 : s.lifecycleState ≠ .kAlive
  · simp [h1]
  · by_cases h2 : s.eofNext <;>
      rcases hfe : firstErrorStatus s.remotes with _ | st <;>
        by_cases h3 : s.params.sort = [] <;> simp [h1, h2, hfe, h3]

theorem signalCurrentEventIfReady_hit (t : ARMState) (e : Nat)
    (hcur : t.currentEvent = some e) (hr : readyVal t = true) :
    e ∈ (signalCurrentEventIfReady t).executor.signalled ∧
    (signalCurrentEventIfReady t).currentEvent = none := by
  have q1 := (readyImpl_fields t).1
  have hrv : (readyImpl t).1 = true := hr
  unfold signalCurrentEventIfReady
  rcases hri : readyImpl t with ⟨rv, s4⟩
  rw [hri] at q1 hrv
  simp only at q1 hrv
  have hc4 : s4.currentEvent = some e := q1.trans hcur
  simp [hc4, hrv, signalEvent]

/-- C10: when `nextEvent` succeeds and the engine was already ready at the
moment the fresh event was installed as `currentEvent`, the returned event
is signalled before `nextEvent` returns and `currentEvent` is cleared, so
the wake-up is not lost and the event cannot be signalled twice. -/
theorem c10_next_event_signals_when_ready (s : ARMState) (ev : Nat) (s' : ARMState)
    (h : nextEvent s = (.ok ev, s')) (hready : readyVal s = true) :
    ev ∈ s'.executor.signalled ∧ s'.currentEvent = none := by
  unfold nextEvent at h
  by_cases h1 : s.lifecycleState ≠ .kAlive
  · simp [h1] at h
  by_cases h2 : s.currentEvent.isSome
  · simp [h1, h2] at h
  simp only [h1, h2, Bool.false_eq_true, if_false] at h
  rcases hres : (nextEventLoop s (List.range s.remotes.length)).1 with _ | c
  rotate_left
  · rw [hres] at h
    simp [Status.isOK] at h
  rw [hres] at h
  simp only [Status.isOK, Bool.not_true, Bool.false_eq_true, if_false] at h
  set s2 := (nextEventLoop s (List.range s.remotes.length)).2 with hs2
  rcases hsd : s2.executor.shuttingDown with _ | _
  rotate_left
  · simp [makeEvent, hsd] at h
  simp only [makeEvent, hsd, Bool.false_eq_true, if_false] at h
  obtain ⟨hev, hs'⟩ := Prod.mk.injEq .. ▸ h
  have hev2 : ev = s2.executor.nextEventId := by
    cases hev
    rfl
  obtain ⟨p1, p2, p3, p4, p5⟩ := nextEventLoop_preserves _ s hres
  rw [← hs', hev2]
  refine signalCurrentEventIfReady_hit _ _ rfl ?_
  have e2 : readyVal s2 = readyVal s := readyVal_congr s2 s p1 p2 p3 p5
  refine Eq.trans (readyVal_congr _ s2 ?_ ?_ ?_ ?_) (e2.trans hready) <;> rfl

def c10State : ARMState :=
  { params :=
      { sort := [1], batchSize := none, tailableMode := .kNormal,
        isAllowPartialResults := false },
    remotes :=
      [{ cursorId := 5, docBuffer := [{ payload := 8, sortKey := some [2] }],
         cbHandleValid := false, fetchedCount := 1, status := .ok }],
    lifecycleState := .kAlive, eofNext := false, status := .ok, gettingFromRemote := 0,
    mergeQueue := [0], currentEvent := none, killCursorsScheduledEvent := none,
    executor :=
      { shuttingDown := false, nextEventId := 0, signalled := [], scheduledCommands := [] } }

/-- Witness for C10 at a concrete already-ready state. -/
theorem c10_next_event_signals_when_ready_witness :
    (0 : Nat) ∈ (nextEvent c10State).2.executor.signalled ∧
    (nextEvent c10State).2.currentEvent = none :=
  c10_next_event_signals_when_ready c10State 0 (nextEvent c10State).2 (by decide) (by decide)

/-! Order-theoretic facts about the sort-key comparison. -/

theorem orderingSwapSwap (o : Ordering) : o.swap.swap = o := by
  cases o <;> rfl

theorem intCmp_eq_lt (a b : Int) : intCmp a b = .lt ↔ a < b := by
  unfold intCmp
  rcases lt_trichotomy a b with h | h | h
  · simp [h]
  · subst h; simp
  · have h1 : ¬a < b := by omega
    simp [h1, h]

theorem intCmp_eq_gt (a b : Int) : intCmp a b = .gt ↔ b < a := by
  unfold intCmp
  rcases lt_trichotomy a b with h | h | h
  · have h2 : ¬b < a := by omega
    simp [h, h2]
  · subst h; simp
  · have h1 : ¬a < b := by omega
    simp [h1, h]

theorem intCmp_eq_eq (a b : Int) : intCmp a b = .eq ↔ a = b := by
  unfold intCmp
  rcases lt_trichotomy a b with h | h | h
  · simp [h]; omega
  · subst h; simp
  · have h1 : ¬a < b := by omega
    simp [h1, h]; omega

theorem intCmp_swap (a b : Int) : (intCmp a b).swap = intCmp b a := by
  unfold intCmp
  rcases lt_trichotomy a b with h | h | h
  · have h2 : ¬b < a := by omega
    simp [h, h2, Ordering.swap]
  · subst h; simp [Ordering.swap]
  · have h1 : ¬a < b := by omega
    simp [h1, h, Ordering.swap]

theorem intCmpD_swap (d a b : Int) : (intCmpD d a b).swap = intCmpD d b a := by
  unfold intCmpD
  by_cases hd : d < 0
  · simp [hd, orderingSwapSwap, ← intCmp_swap a b]
  · simp [hd, intCmp_swap]

theorem intCmpD_eq_eq (d a b : Int) : intCmpD d a b = .eq ↔ a = b := by
  unfold intCmpD
  by_cases hd : d < 0
  · have : (intCmp a b).swap = .eq ↔ intCmp a b = .eq := by
      cases intCmp a b <;> simp [Ordering.swap]
    simp [hd, this, intCmp_eq_eq]
  · simp [hd, intCmp_eq_eq]

theorem intCmpD_lt_trans (d a b c : Int)
    (h1 : intCmpD d a b = .lt) (h2 : intCmpD d b c = .lt) : intCmpD d a c = .lt := by
  unfold intCmpD at h1 h2 ⊢
  by_cases hd : d < 0
  · simp only [hd, if_true] at h1 h2 ⊢
    have e1 : intCmp a b = .gt := by
      cases he : intCmp a b <;> rw [he] at h1 <;> simp [Ordering.swap] at h1
    have e2 : intCmp b c = .gt := by
      cases he : intCmp b c <;> rw [he] at h2 <;> simp [Ordering.swap] at h2
    have : intCmp a c = .gt := by
      rw [intCmp_eq_gt] at e1 e2 ⊢
      omega
    rw [this]
    rfl
  · simp only [hd, if_false] at h1 h2 ⊢
    rw [intCmp_eq_lt] at h1 h2 ⊢
    omega

theorem woCompareKeys_swap (dirs a b : List Int) :
    (woCompareKeys dirs a b).swap = woCompareKeys dirs b a := by
  induction a generalizing b dirs with
  | nil => cases b <;> rfl
  | cons x xs ih =>
    cases b with
    | nil => rfl
    | cons y ys =>
      simp only [woCompareKeys]
      rcases hxy : intCmpD (dirs.headD 1) x y with _ | _ | _
      · have hyx : intCmpD (dirs.headD 1) y x = .gt := by
          rw [← intCmpD_swap, hxy]; rfl
        rw [hyx]
        rfl
      · have hyx : intCmpD (dirs.headD 1) y x = .eq := by
          rw [← intCmpD_swap, hxy]; rfl
        rw [hyx]
        exact ih dirs.tail ys
      · have hyx : intCmpD (dirs.headD 1) y x = .lt := by
          rw [← intCmpD_swap, hxy]; rfl
        rw [hyx]
        rfl

theorem woCompareKeys_self (dirs a : List Int) : woCompareKeys dirs a a = .eq := by
  induction a generalizing dirs with
  | nil => rfl
  | cons x xs ih =>
    simp only [woCompareKeys]
    rw [(intCmpD_eq_eq (dirs.headD 1) x x).mpr rfl]
    exact ih dirs.tail

theorem keyLE_refl (dirs a : List Int) : keyLE dirs a a := by
  unfold keyLE
  rw [woCompareKeys_self]
  simp

theorem keyLE_of_gt (dirs a b : List Int) (h : woCompareKeys dirs a b = .gt) :
    keyLE dirs b a := by
  unfold keyLE
  rw [← woCompareKeys_swap, h]
  simp [Ordering.swap]

theorem keyLE_trans {dirs a b c : List Int}
    (h1 : keyLE dirs a b) (h2 : keyLE dirs b c) : keyLE dirs a c := by
  unfold keyLE at h1 h2 ⊢
  induction a generalizing b c dirs with
  | nil =>
    cases c with
    | nil => simp [woCompareKeys]
    | cons z zs => simp [woCompareKeys]
  | cons x xs ih =>
    cases b with
    | nil => simp [woCompareKeys] at h1
    | cons y ys =>
      cases c with
      | nil => simp [woCompareKeys] at h2
      | cons z zs =>
        simp only [woCompareKeys] at h1 h2 ⊢
        rcases hxy : intCmpD (dirs.headD 1) x y with _ | _ | _ <;> rw [hxy] at h1
        · rcases hyz : intCmpD (dirs.headD 1) y z with _ | _ | _ <;> rw [hyz] at h2
          · rw [intCmpD_lt_trans _ _ _ _ hxy hyz]
            simp
          · have hz : y = z := (intCmpD_eq_eq _ _ _).mp hyz
            subst hz
            rw [hxy]
            simp
          · simp at h2
        · have hy : x = y := (intCmpD_eq_eq _ _ _).mp hxy
          subst hy
          rcases hyz : intCmpD (dirs.headD 1) x z with _ | _ | _ <;> rw [hyz] at h2
          · simp
          · exact ih h1 h2
          · simp at h2
        · simp at h1

theorem mergeQueueTopLoop_mem (dirs : List Int) (key : Nat → List Int) (l : List Nat)
    (best : Nat) :
    mergeQueueTopLoop dirs key best l = best ∨ mergeQueueTopLoop dirs key best l ∈ l := by
  induction l generalizing best with
  | nil => left; rfl
  | cons i rest ih =>
    simp only [mergeQueueTopLoop]
    rcases ih (if woCompareKeys dirs (key best) (key i) = .gt then i else best) with h | h
    · rw [h]
      by_cases hc : woCompareKeys dirs (key best) (key i) = .gt
      · right
        simp [hc]
      · left
        simp [hc]
    · right
      exact List.mem_cons_of_mem _ h

theorem mergeQueueTopLoop_min (dirs : List Int) (key : Nat → List Int) (l : List Nat)
    (best : Nat) :
    keyLE dirs (key (mergeQueueTopLoop dirs key best l)) (key best) ∧
    ∀ j ∈ l, keyLE dirs (key (mergeQueueTopLoop dirs key best l)) (key j) := by
  induction l generalizing best with
  | nil => exact ⟨keyLE_refl dirs (key best), by simp⟩
  | cons i rest ih =>
    simp only [mergeQueueTopLoop]
    obtain ⟨ih1, ih2⟩ := ih (if woCompareKeys dirs (key best) (key i) = .gt then i else best)
    have hb_best : keyLE dirs
        (key (if woCompareKeys dirs (key best) (key i) = .gt then i else best)) (key best) := by
      by_cases hc : woCompareKeys dirs (key best) (key i) = .gt
      · simp only [hc, if_true]
        exact keyLE_of_gt dirs _ _ hc
      · simp only [hc, if_false]
        exact keyLE_refl dirs (key best)
    have hb_i : keyLE dirs
        (key (if woCompareKeys dirs (key best) (key i) = .gt then i else best)) (key i) := by
      by_cases hc : woCompareKeys dirs (key best) (key i) = .gt
      · simp only [hc, if_true]
        exact keyLE_refl dirs (key i)
      · simp only [hc, if_false]
        exact hc
    refine ⟨keyLE_trans ih1 hb_best, ?_⟩
    intro j hj
    rcases List.mem_cons.mp hj with rfl | hj
    · exact keyLE_trans ih1 hb_i
    · exact ih2 j hj

/-! The merge-queue invariant shared by the sorted-merge development. -/

/-- The priority-queue invariant: an index is in `_mergeQueue` iff a sort is
configured and that remote's buffer is non-empty, and no index appears
twice. -/
def queueInv (s : ARMState) : Prop :=
  (∀ j ∈ s.mergeQueue, s.params.sort ≠ [] ∧ j < s.remotes.length ∧
    (getRemote s j).docBuffer ≠ []) ∧
  (∀ j, j < s.remotes.length → s.params.sort ≠ [] → (getRemote s j).docBuffer ≠ [] →
    j ∈ s.mergeQueue) ∧
  s.mergeQueue.Nodup

/-- All buffered documents of every remote carry a sort key and are in
non-decreasing key order. -/
def buffersWellFormed (s : ARMState) : Prop :=
  ∀ i, i < s.remotes.length →
    (∀ d ∈ (getRemote s i).docBuffer, d.sortKey.isSome = true) ∧
    (getRemote s i).docBuffer.Pairwise (docLE s.params.sort)

theorem queueTopOf_mem (s : ARMState) (hne : s.mergeQueue ≠ []) :
    queueTopOf s ∈ s.mergeQueue := by
  unfold queueTopOf
  rcases hmq : s.mergeQueue with _ | ⟨t0, rest⟩
  · exact absurd hmq hne
  · show mergeQueueTopLoop s.params.sort (headDocKey s) t0 rest ∈ t0 :: rest
    rcases mergeQueueTopLoop_mem s.params.sort (headDocKey s) rest t0 with hm | hm
    · rw [hm]
      exact List.mem_cons_self t0 rest
    · exact List.mem_cons_of_mem _ hm

theorem queueTopOf_min (s : ARMState) (t0 : Nat) (rest : List Nat)
    (hmq : s.mergeQueue = t0 :: rest) :
    ∀ j ∈ s.mergeQueue, keyLE s.params.sort (headDocKey s (queueTopOf s)) (headDocKey s j) := by
  intro j hj
  unfold queueTopOf
  rw [hmq]
  show keyLE s.params.sort
    (headDocKey s (mergeQueueTopLoop s.params.sort (headDocKey s) t0 rest)) (headDocKey s j)
  obtain ⟨hm1, hm2⟩ := mergeQueueTopLoop_min s.params.sort (headDocKey s) rest t0
  rw [hmq] at hj
  rcases List.mem_cons.mp hj with rfl | hj
  · exact hm1
  · exact hm2 j hj

theorem nextReadySorted_extract (s : ARMState) (d : BSONDoc) (s' : ARMState)
    (hq : queueInv s) (h : nextReadySorted s = (.doc d, s')) :
    ∃ t, t < s.remotes.length ∧ t ∈ s.mergeQueue ∧
      (getRemote s t).docBuffer ≠ [] ∧
      d = (getRemote s t).docBuffer.headD dummyDoc ∧
      (∀ j ∈ s.mergeQueue, keyLE s.params.sort (docKey d) (headDocKey s j)) ∧
      s' = { setRemote s t
               { getRemote s t with docBuffer := (getRemote s t).docBuffer.tail } with
             mergeQueue :=
               if (getRemote s t).docBuffer.tail.isEmpty then s.mergeQueue.erase t
               else t :: s.mergeQueue.erase t } := by
  have hne : s.mergeQueue ≠ [] := by
    intro hmq
    unfold nextReadySorted at h
    rw [hmq] at h
    simp at h
  have hmem : queueTopOf s ∈ s.mergeQueue := queueTopOf_mem s hne
  obtain ⟨hsort, htlen, htbuf⟩ := hq.1 _ hmem
  rcases hbt : (getRemote s (queueTopOf s)).docBuffer with _ | ⟨front, restBuf⟩
  · exact absurd hbt htbuf
  obtain ⟨t0, rest, hmq⟩ := List.exists_cons_of_ne_nil hne
  unfold nextReadySorted at h
  rw [hmq] at h
  simp only at h
  rw [hbt] at h
  simp only at h
  have hd : d = front := by
    have := congrArg Prod.fst h
    simp only at this
    exact (NextResult.doc.injEq .. ▸ this).symm
  have hs' : s' = { setRemote s (queueTopOf s)
      { getRemote s (queueTopOf s) with docBuffer := restBuf } with
      mergeQueue := if restBuf.isEmpty then (t0 :: rest).erase (queueTopOf s)
        else queueTopOf s :: (t0 :: rest).erase (queueTopOf s) } := by
    have := congrArg Prod.snd h
    simp only at this
    exact this.symm
  refine ⟨queueTopOf s, htlen, hmem, htbuf, ?_, ?_, ?_⟩
  · rw [hbt, hd]
    rfl
  · intro j hj
    have hk : docKey d = headDocKey s (queueTopOf s) := by
      rw [hd]
      unfold headDocKey
      rw [hbt]
      rfl
    rw [hk]
    exact queueTopOf_min s t0 rest hmq j hj
  · rw [hs', hbt, hmq]
    rfl

theorem addBatchToBufferLoop_true (sort : List Int) (batch : List BSONDoc)
    (r r2 : RemoteCursorData)
    (h : addBatchToBufferLoop sort r batch = (true, r2)) :
    r2 = { r with docBuffer := r.docBuffer ++ batch,
                  fetchedCount := r.fetchedCount + batch.length } := by
  induction batch generalizing r with
  | nil =>
    simp only [addBatchToBufferLoop, Prod.mk.injEq, true_and] at h
    rw [← h]
    simp
  | cons obj rest ih =>
    simp only [addBatchToBufferLoop] at h
    rcases hc : (!sort.isEmpty && !obj.sortKey.isSome) with _ | _
    · rw [hc] at h
      simp only [Bool.false_eq_true, if_false] at h
      have := ih _ h
      rw [this]
      simp [RemoteCursorData.mk.injEq, List.append_assoc]
      omega
    · rw [hc] at h
      simp at h

theorem addBatchToBuffer_true (s : ARMState) (i : Nat) (batch : List BSONDoc)
    (s' : ARMState) (h : addBatchToBuffer s i batch = (true, s')) :
    s' = (if !s.params.sort.isEmpty && !batch.isEmpty then
            { (setRemote s i
                { getRemote s i with
                    docBuffer := (getRemote s i).docBuffer ++ batch,
                    fetchedCount := (getRemote s i).fetchedCount + batch.length }) with
              mergeQueue := i :: s.mergeQueue }
          else
            setRemote s i
              { getRemote s i with
                  docBuffer := (getRemote s i).docBuffer ++ batch,
                  fetchedCount := (getRemote s i).fetchedCount + batch.length }) := by
  unfold addBatchToBuffer at h
  rcases hl : addBatchToBufferLoop s.params.sort (getRemote s i) batch with ⟨flag, r2⟩
  rw [hl] at h
  rcases flag with _ | _
  · simp at h
  · have hr2 := addBatchToBufferLoop_true s.params.sort batch (getRemote s i) r2 hl
    subst hr2
    simp only [setRemote] at h
    rcases hc : (!s.params.sort.isEmpty && !batch.isEmpty) with _ | _ <;> rw [hc] at h <;>
      simp only [Bool.false_eq_true, if_false, if_true, Prod.mk.injEq, true_and] at h <;>
      rw [← h] <;> simp [hc, setRemote]

/-- C7 (counterexample): in a reachable state obtained by a failed append
(batch with a good document then one lacking a sort key), remote 0's buffer
is non-empty while the merge queue is empty, so the claimed iff between
queue membership and buffer non-emptiness fails. -/
theorem c7_queue_invariant_counterexample :
    c2State.params.sort ≠ [] ∧
    queueInv c2State ∧
    (getRemote (addBatchToBuffer c2State 0 [c2GoodDoc, c2BadDoc]).2 0).docBuffer ≠ [] ∧
    (0 : Nat) < (addBatchToBuffer c2State 0 [c2GoodDoc, c2BadDoc]).2.remotes.length ∧
    (0 : Nat) ∉ (addBatchToBuffer c2State 0 [c2GoodDoc, c2BadDoc]).2.mergeQueue ∧
    ¬ queueInv (addBatchToBuffer c2State 0 [c2GoodDoc, c2BadDoc]).2 := by
  refine ⟨by decide, ⟨by decide, by decide, by decide⟩, by decide, by decide, by decide, ?_⟩
  intro hinv
  have hmem := hinv.2.1 0 (by decide) (by decide) (by decide)
  exact absurd hmem (by decide)

theorem addBatchToBuffer_true_fields (s : ARMState) (i : Nat) (batch : List BSONDoc)
    (s' : ARMState) (hi : i < s.remotes.length)
    (h : addBatchToBuffer s i batch = (true, s')) :
    s'.params = s.params ∧
    s'.remotes.length = s.remotes.length ∧
    (∀ j, j ≠ i → getRemote s' j = getRemote s j) ∧
    getRemote s' i = { getRemote s i with
      docBuffer := (getRemote s i).docBuffer ++ batch,
      fetchedCount := (getRemote s i).fetchedCount + batch.length } ∧
    s'.mergeQueue = (if !s.params.sort.isEmpty && !batch.isEmpty
      then i :: s.mergeQueue else s.mergeQueue) := by
  have hs' := addBatchToBuffer_true s i batch s' h
  rcases hg : (!s.params.sort.isEmpty && !batch.isEmpty) with _ | _ <;> rw [hg] at hs' <;>
    simp only [Bool.false_eq_true, if_false, if_true] at hs' <;> subst hs'
  · exact ⟨rfl, by simp [setRemote], fun j hj =>
      getRemote_setRemote_ne s i j _ (fun e => hj e.symm),
      getRemote_setRemote_self s i _ hi, by simp [setRemote]⟩
  · exact ⟨rfl, by simp [setRemote], fun j hj =>
      getRemote_setRemote_ne s i j _ (fun e => hj e.symm),
      getRemote_setRemote_self s i _ hi, by simp [setRemote]⟩

theorem queueInv_addBatch (s : ARMState) (i : Nat) (batch : List BSONDoc)
    (s' : ARMState) (hq : queueInv s) (hi : i < s.remotes.length)
    (hbuf : (getRemote s i).docBuffer = [])
    (h : addBatchToBuffer s i batch = (true, s')) : queueInv s' := by
  obtain ⟨hfwd, hbwd, hnodup⟩ := hq
  obtain ⟨hpar, hlen, hne, hself, hmq⟩ := addBatchToBuffer_true_fields s i batch s' hi h
  have hbufi : (getRemote s' i).docBuffer = batch := by
    rw [hself]
    simp [hbuf]
  rcases hg : (!s.params.sort.isEmpty && !batch.isEmpty) with _ | _ <;> rw [hg] at hmq
  · simp only [Bool.false_eq_true, if_false] at hmq
    have hcase : s.params.sort = [] ∨ batch = [] := by
      rcases Bool.and_eq_false_iff.mp hg with hcl | hcl
      · left
        rcases hh2 : s.params.sort.isEmpty with _ | _
        · rw [hh2] at hcl; simp at hcl
        · simpa [List.isEmpty_iff] using hh2
      · right
        rcases hh2 : batch.isEmpty with _ | _
        · rw [hh2] at hcl; simp at hcl
        · simpa [List.isEmpty_iff] using hh2
    refine ⟨?_, ?_, by rw [hmq]; exact hnodup⟩
    · intro j hj
      rw [hmq] at hj
      obtain ⟨h1, h2, h3⟩ := hfwd j hj
      refine ⟨by rw [hpar]; exact h1, by rw [hlen]; exact h2, ?_⟩
      by_cases hij : j = i
      · subst hij
        exact absurd hbuf h3
      · rw [hne j hij]
        exact h3
    · intro j hjl hjs hjb
      rw [hmq]
      rw [hlen] at hjl
      rw [hpar] at hjs
      by_cases hij : j = i
      · subst hij
        rw [hbufi] at hjb
        rcases hcase with hc | hc
        · exact absurd hjs (by simp [hc])
        · exact absurd hjb (by simp [hc])
      · rw [hne j hij] at hjb
        exact hbwd j hjl hjs hjb
  · simp only [if_true] at hmq
    obtain ⟨hsne, hbne⟩ := Bool.and_eq_true_iff.mp hg
    have hsort : s.params.sort ≠ [] := by
      intro hc
      rw [hc] at hsne
      simp at hsne
    have hbatch : batch ≠ [] := by
      intro hc
      rw [hc] at hbne
      simp at hbne
    have hinotin : i ∉ s.mergeQueue := by
      intro hmem
      exact (hfwd i hmem).2.2 hbuf
    refine ⟨?_, ?_, by rw [hmq]; exact List.Nodup.cons hinotin hnodup⟩
    · intro j hj
      rw [hmq] at hj
      rcases List.mem_cons.mp hj with rfl | hj
      · refine ⟨by rw [hpar]; exact hsort, by rw [hlen]; exact hi, ?_⟩
        rw [hbufi]
        exact hbatch
      · obtain ⟨h1, h2, h3⟩ := hfwd j hj
        have hij : j ≠ i := by
          intro hc
          subst hc
          exact h3 hbuf
        refine ⟨by rw [hpar]; exact h1, by rw [hlen]; exact h2, ?_⟩
        rw [hne j hij]
        exact h3
    · intro j hjl hjs hjb
      rw [hmq]
      rw [hlen] at hjl
      rw [hpar] at hjs
      by_cases hij : j = i
      · subst hij
        exact List.mem_cons_self _ _
      · rw [hne j hij] at hjb
        exact List.mem_cons_of_mem _ (hbwd j hjl hjs hjb)

theorem queueInv_extract (s : ARMState) (d : BSONDoc) (s' : ARMState)
  (hq : queueInv s) (h : nextReadySorted s = (.doc d, s')) : queueInv s' := by
  obtain ⟨t, htl, htm, htb, _, _, hs'⟩ := nextReadySorted_extract s d s' hq h
  obtain ⟨hfwd, hbwd, hnodup⟩ := hq
  have hpar : s'.params = s.params := by rw [hs']; rfl
  have hlen : s'.remotes.length = s.remotes.length := by
    rw [hs']
    simp [setRemote]
  have hne : ∀ j, j ≠ t → getRemote s' j = getRemote s j := by
    intro j hj
    rw [hs']
    exact getRemote_setRemote_ne s t j _ (fun e => hj e.symm)
  have hself : getRemote s' t
      = { getRemote s t with docBuffer := (getRemote s t).docBuffer.tail } := by
    rw [hs']
    exact getRemote_setRemote_self s t _ htl
  have hbuft : (getRemote s' t).docBuffer = (getRemote s t).docBuffer.tail := by
    rw [hself]
  have hmq : s'.mergeQueue = (if (getRemote s t).docBuffer.tail.isEmpty
      then s.mergeQueue.erase t else t :: s.mergeQueue.erase t) := by
    rw [hs']
  have herase : ∀ j, j ∈ s.mergeQueue.erase t ↔ j ≠ t ∧ j ∈ s.mergeQueue :=
    fun j => hnodup.mem_erase_iff
  refine ⟨?_, ?_, ?_⟩
  · intro j hj
    rw [hmq] at hj
    rcases he : (getRemote s t).docBuffer.tail.isEmpty with _ | _
    · simp only [he, Bool.false_eq_true, if_false] at hj
      rcases List.mem_cons.mp hj with rfl | hj
      · obtain ⟨h1, h2, _⟩ := hfwd j htm
        refine ⟨by rw [hpar]; exact h1, by rw [hlen]; exact h2, ?_⟩
        rw [hbuft]
        intro hc
        rw [hc] at he
        simp at he
      · obtain ⟨hjt, hjm⟩ := (herase j).mp hj
        obtain ⟨h1, h2, h3⟩ := hfwd j hjm
        refine ⟨by rw [hpar]; exact h1, by rw [hlen]; exact h2, ?_⟩
        rw [hne j hjt]
        exact h3
    · simp only [he, if_true] at hj
      obtain ⟨hjt, hjm⟩ := (herase j).mp hj
      obtain ⟨h1, h2, h3⟩ := hfwd j hjm
      refine ⟨by rw [hpar]; exact h1, by rw [hlen]; exact h2, ?_⟩
      rw [hne j hjt]
      exact h3
  · intro j hjl hjs hjb
    rw [hlen] at hjl
    rw [hpar] at hjs
    rw [hmq]
    by_cases hjt : j = t
    · subst hjt
      rw [hbuft] at hjb
      have he : (getRemote s j).docBuffer.tail.isEmpty = false := by
        rcases hh : (getRemote s j).docBuffer.tail.isEmpty with _ | _
        · rfl
        · exact absurd (List.isEmpty_iff.mp hh) hjb
      rw [he]
      simp
    · rw [hne j hjt] at hjb
      have hjm := hbwd j hjl hjs hjb
      rcases he : (getRemote s t).docBuffer.tail.isEmpty with _ | _
      · simp only [Bool.false_eq_true, if_false]
        exact List.mem_cons_of_mem _ ((herase j).mpr ⟨hjt, hjm⟩)
      · simp only [if_true]
        exact (herase j).mpr ⟨hjt, hjm⟩
  · rw [hmq]
    rcases he : (getRemote s t).docBuffer.tail.isEmpty with _ | _
    · simp only [Bool.false_eq_true, if_false]
      refine List.Nodup.cons ?_ (hnodup.erase t)
      intro hc
      exact absurd ((herase t).mp hc).1 (by simp)
    · simp only [if_true]
      exact hnodup.erase t

/-- C7 (amended): the invariant — `_mergeQueue` contains an index iff a
sort is configured and that remote's buffer is non-empty, each index at
most once — is preserved by successful batch appends to a remote with an
empty buffer (the only appends the engine performs, which push the index
exactly for a non-empty appended batch) and by sorted extraction (which
pops the top and pushes it back only while that remote still has buffered
documents).  A failed append can break the iff for the failed remote,
whose status is then non-OK (see the counterexample). -/
theorem c7_queue_invariant (s : ARMState) :
    (∀ (i : Nat) (batch : List BSONDoc) (s' : ARMState),
      queueInv s → i < s.remotes.length → (getRemote s i).docBuffer = [] →
      addBatchToBuffer s i batch = (true, s') → queueInv s') ∧
    (∀ (d : BSONDoc) (s' : ARMState),
      queueInv s → nextReadySorted s = (.doc d, s') → queueInv s') :=
  ⟨fun i batch s' hq hi hbuf h => queueInv_addBatch s i batch s' hq hi hbuf h,
   fun d s' hq h => queueInv_extract s d s' hq h⟩

/-- Witness for C7 at a concrete sorted append. -/
theorem c7_queue_invariant_witness :
    queueInv (addBatchToBuffer c2State 0 [c2GoodDoc]).2 :=
  (c7_queue_invariant c2State).1 0 [c2GoodDoc] _ ⟨by decide, by decide, by decide⟩
    (by decide) (by decide) (by decide)

/-! Sorted-merge monotonicity development. -/

/-- Comparison of an optional lower bound against a key. -/
def optKeyLE (dirs : List Int) : Option (List Int) → List Int → Prop
  | none, _ => True
  | some x, k => keyLE dirs x k

/-- The ghost value of a drained remote dominates the last emitted key. -/
def ghostAboveLast (dirs : List Int) (lastOut : Option (List Int)) :
    Option (List Int) → Prop
  | none => lastOut = none
  | some k => optKeyLE dirs lastOut k

/-- The ghost value dominates every buffered document. -/
def bufBelowGhost (dirs : List Int) (o : Option (List Int)) (buf : List BSONDoc) : Prop :=
  match o with
  | none => buf = []
  | some k => ∀ d ∈ buf, keyLE dirs (docKey d) k

/-- Key of the last document of a batch. -/
def lastKeyOf : List BSONDoc → Option (List Int)
  | [] => none
  | [d] => some (docKey d)
  | _ :: d1 :: rest => lastKeyOf (d1 :: rest)

theorem lastKeyOf_eq_none : ∀ (batch : List BSONDoc), lastKeyOf batch = none ↔ batch = []
  | [] => by simp [lastKeyOf]
  | [d] => by simp [lastKeyOf]
  | d0 :: d1 :: rest => by
    simp only [lastKeyOf]
    rw [lastKeyOf_eq_none (d1 :: rest)]
    simp

theorem lastKeyOf_mem : ∀ (batch : List BSONDoc) (k : List Int),
    lastKeyOf batch = some k → ∃ x ∈ batch, docKey x = k
  | [], k, hk => by simp [lastKeyOf] at hk
  | [d], k, hk => by
    simp [lastKeyOf] at hk
    exact ⟨d, by simp, hk⟩
  | d0 :: d1 :: rest, k, hk => by
    obtain ⟨x, hx, hxk⟩ := lastKeyOf_mem (d1 :: rest) k hk
    exact ⟨x, List.mem_cons_of_mem _ hx, hxk⟩

theorem lastKeyOf_spec (dirs : List Int) : ∀ (batch : List BSONDoc),
    batch.Pairwise (docLE dirs) → ∀ k, lastKeyOf batch = some k →
    ∀ d ∈ batch, keyLE dirs (docKey d) k
  | [], _, k, hk => by simp [lastKeyOf] at hk
  | [d0], _, k, hk => by
    simp [lastKeyOf] at hk
    subst hk
    intro d hd
    simp at hd
    subst hd
    exact keyLE_refl dirs (docKey d)
  | d0 :: d1 :: rest, hp, k, hk => by
    intro d hd
    obtain ⟨hhead, htail⟩ := List.pairwise_cons.mp hp
    rcases List.mem_cons.mp hd with rfl | hd
    · obtain ⟨x, hx, hxk⟩ := lastKeyOf_mem (d1 :: rest) k hk
      have h2 : keyLE dirs (docKey d) (docKey x) := hhead x hx
      rw [hxk] at h2
      exact h2
    · exact lastKeyOf_spec dirs (d1 :: rest) htail k hk d hd

/-- The ghost after a batch delivery: the batch's last key for the delivering
remote (unchanged for an empty batch), unchanged elsewhere. -/
def ghostUpdate (g : Nat → Option (List Int)) (i : Nat) (batch : List BSONDoc) :
    Nat → Option (List Int) :=
  fun j => if j = i then
    (match lastKeyOf batch with
     | none => g i
     | some k => some k)
  else g j

/-- The invariant of the sorted-merge argument, relating the engine state,
the ghost upper bounds and the key of the last emitted document. -/
structure SortedInv (s : ARMState) (g : Nat → Option (List Int))
    (lastOut : Option (List Int)) : Prop where
  hasSort : s.params.sort ≠ []
  queue : queueInv s
  wf : buffersWellFormed s
  lastOutLe : ∀ i, i < s.remotes.length →
    ∀ d ∈ (getRemote s i).docBuffer, optKeyLE s.params.sort lastOut (docKey d)
  ghostUpper : ∀ i, i < s.remotes.length →
    bufBelowGhost s.params.sort (g i) (getRemote s i).docBuffer
  ghostEmpty : ∀ i, i < s.remotes.length → (getRemote s i).docBuffer = [] →
    (getRemote s i).exhausted = false → ghostAboveLast s.params.sort lastOut (g i)

/-- One step of the sorted-merge engine: an extraction through
`_nextReadySorted` when `_readySorted` holds, or the arrival of a batch for
an empty, non-exhausted remote that continues that remote's sorted stream
(the success path of `_processBatchResults`: cursor-id update followed by
`_addBatchToBuffer`). -/
inductive MergeStep :
    ARMState → (Nat → Option (List Int)) → List BSONDoc →
    ARMState → (Nat → Option (List Int)) → Prop
  | extract (s : ARMState) (g : Nat → Option (List Int)) (d : BSONDoc) (s' : ARMState) :
      readySorted s = true →
      nextReadySorted s = (.doc d, s') →
      MergeStep s g [d] s' g
  | deliver (s : ARMState) (g : Nat → Option (List Int)) (i : Nat)
      (resp : CursorResponse) (s' : ARMState) :
      i < s.remotes.length →
      (getRemote s i).docBuffer = [] →
      (getRemote s i).exhausted = false →
      (∀ d ∈ resp.batch, d.sortKey.isSome = true) →
      resp.batch.Pairwise (docLE s.params.sort) →
      (∀ k, g i = some k → ∀ d ∈ resp.batch, keyLE s.params.sort k (docKey d)) →
      addBatchToBuffer (setRemote s i { getRemote s i with cursorId := resp.cursorId }) i
        resp.batch = (true, s') →
      MergeStep s g [] s' (ghostUpdate g i resp.batch)

/-- A run of the sorted-merge engine, collecting the emitted documents. -/
inductive MergeRun :
    ARMState → (Nat → Option (List Int)) → List BSONDoc →
    ARMState → (Nat → Option (List Int)) → Prop
  | refl (s : ARMState) (g : Nat → Option (List Int)) : MergeRun s g [] s g
  | step {s : ARMState} {g : Nat → Option (List Int)} {out1 : List BSONDoc}
      {s1 : ARMState} {g1 : Nat → Option (List Int)} {out2 : List BSONDoc}
      {s2 : ARMState} {g2 : Nat → Option (List Int)} :
      MergeStep s g out1 s1 g1 → MergeRun s1 g1 out2 s2 g2 →
      MergeRun s g (out1 ++ out2) s2 g2

/-- The emitted documents ascend from the previous last-output key to a new
last-output key. -/
def outChain (dirs : List Int) : Option (List Int) → List BSONDoc →
    Option (List Int) → Prop
  | lo, [], lo2 => lo2 = lo
  | lo, d :: rest, lo2 => optKeyLE dirs lo (docKey d) ∧ outChain dirs (some (docKey d)) rest lo2

theorem outChain_append (dirs : List Int) (out1 : List BSONDoc) :
    ∀ (lo lo1 lo2 : Option (List Int)) (out2 : List BSONDoc),
    outChain dirs lo out1 lo1 → outChain dirs lo1 out2 lo2 →
    outChain dirs lo (out1 ++ out2) lo2 := by
  induction out1 with
  | nil =>
    intro lo lo1 lo2 out2 h1 h2
    have : lo1 = lo := h1
    subst this
    simpa using h2
  | cons d rest ih =>
    intro lo lo1 lo2 out2 h1 h2
    obtain ⟨ha, hb⟩ := h1
    exact ⟨ha, ih _ lo1 lo2 out2 hb h2⟩

theorem outChain_chain (dirs : List Int) (out : List BSONDoc) :
    ∀ (lo lo2 : Option (List Int)), outChain dirs lo out lo2 →
    out.Chain' (docLE dirs) := by
  induction out with
  | nil => intro lo lo2 _; exact List.chain'_nil
  | cons d rest ih =>
    intro lo lo2 h
    rcases rest with _ | ⟨d2, rest2⟩
    · simp
    · have hb : outChain dirs (some (docKey d)) (d2 :: rest2) lo2 := h.2
      exact List.chain'_cons.mpr ⟨hb.1, ih (some (docKey d)) lo2 hb⟩

theorem getRemote_mem (s : ARMState) (i : Nat) (hi : i < s.remotes.length) :
    getRemote s i ∈ s.remotes := by
  unfold getRemote
  rw [List.getD_eq_getElem?_getD, List.getElem?_eq_getElem hi]
  exact List.getElem_mem hi

theorem readySorted_empty_exhausted (s : ARMState) (h : readySorted s = true)
    (i : Nat) (hi : i < s.remotes.length) (hb : (getRemote s i).docBuffer = []) :
    (getRemote s i).exhausted = true := by
  have hall := (readySorted_spec s).mp h (getRemote s i) (getRemote_mem s i hi)
  rcases hall with hn | he
  · rw [RemoteCursorData.hasNext, hb] at hn
    simp at hn
  · exact he

theorem bufBelowGhost_nil (dirs : List Int) (o : Option (List Int)) :
    bufBelowGhost dirs o [] := by
  rcases o with _ | k
  · rfl
  · intro d hd
    simp at hd

theorem mergeStep_extract_inv (s : ARMState) (g : Nat → Option (List Int))
    (lastOut : Option (List Int)) (d : BSONDoc) (s' : ARMState)
    (hinv : SortedInv s g lastOut)
    (hready : readySorted s = true)
    (h : nextReadySorted s = (.doc d, s')) :
    SortedInv s' g (some (docKey d)) ∧ optKeyLE s.params.sort lastOut (docKey d) ∧
    s'.params = s.params := by
  obtain ⟨t, htl, htm, htb, hd, hkey, hs'⟩ := nextReadySorted_extract s d s' hinv.queue h
  have hpar : s'.params = s.params := by rw [hs']; rfl
  have hlen : s'.remotes.length = s.remotes.length := by
    rw [hs']
    simp [setRemote]
  have hne : ∀ j, j ≠ t → getRemote s' j = getRemote s j := by
    intro j hj
    rw [hs']
    exact getRemote_setRemote_ne s t j _ (fun e => hj e.symm)
  have hself : getRemote s' t
      = { getRemote s t with docBuffer := (getRemote s t).docBuffer.tail } := by
    rw [hs']
    exact getRemote_setRemote_self s t _ htl
  obtain ⟨front, restBuf, hbt⟩ := List.exists_cons_of_ne_nil htb
  have hdf : d = front := by
    rw [hd, hbt]
    rfl
  have hbuft : (getRemote s' t).docBuffer = restBuf := by
    rw [hself]
    simp only [hbt, List.tail_cons]
  have hqinv' : queueInv s' := queueInv_extract s d s' hinv.queue h
  have hwft := hinv.wf t htl
  have hpairt : ((getRemote s t).docBuffer).Pairwise (docLE s.params.sort) := hwft.2
  rw [hbt] at hpairt
  obtain ⟨hfrontle, hpairrest⟩ := List.pairwise_cons.mp hpairt
  have hdmem : d ∈ (getRemote s t).docBuffer := by
    rw [hbt, hdf]
    exact List.mem_cons_self _ _
  refine ⟨⟨?_, hqinv', ?_, ?_, ?_, ?_⟩, ?_, hpar⟩
  · rw [hpar]
    exact hinv.hasSort
  · -- buffers well formed
    intro j hj
    rw [hlen] at hj
    rw [hpar]
    by_cases hjt : j = t
    · subst hjt
      rw [hbuft]
      obtain ⟨hk, _⟩ := hinv.wf j hj
      constructor
      · intro d2 hd2
        exact hk d2 (by rw [hbt]; exact List.mem_cons_of_mem _ hd2)
      · exact hpairrest
    · rw [hne j hjt]
      exact hinv.wf j hj
  · -- lastOutLe for the new last output
    intro j hj d2 hd2
    rw [hlen] at hj
    rw [hpar]
    show keyLE s.params.sort (docKey d) (docKey d2)
    by_cases hjt : j = t
    · subst hjt
      rw [hbuft] at hd2
      have := hfrontle d2 hd2
      rw [← hdf] at this
      exact this
    · rw [hne j hjt] at hd2
      have hbne : (getRemote s j).docBuffer ≠ [] := by
        intro hc
        rw [hc] at hd2
        simp at hd2
      have hjq : j ∈ s.mergeQueue := hinv.queue.2.1 j hj hinv.hasSort hbne
      have hhead := hkey j hjq
      obtain ⟨h0, t0, hb0⟩ := List.exists_cons_of_ne_nil hbne
      have hheadk : headDocKey s j = docKey h0 := by
        unfold headDocKey
        rw [hb0]
        rfl
      rw [hheadk] at hhead
      rw [hb0] at hd2
      rcases List.mem_cons.mp hd2 with rfl | hd2
      · exact hhead
      · have hpj := (hinv.wf j hj).2
        rw [hb0] at hpj
        have := (List.pairwise_cons.mp hpj).1 d2 hd2
        exact keyLE_trans hhead this
  · -- ghost upper bounds
    intro j hj
    rw [hlen] at hj
    rw [hpar]
    by_cases hjt : j = t
    · subst hjt
      rw [hbuft]
      have hg := hinv.ghostUpper j hj
      rcases hgj : g j with _ | k
      · rw [hgj] at hg
        have : (getRemote s j).docBuffer = [] := hg
        rw [hbt] at this
        simp at this
      · rw [hgj] at hg
        intro d2 hd2
        exact hg d2 (by rw [hbt]; exact List.mem_cons_of_mem _ hd2)
    · rw [hne j hjt]
      exact hinv.ghostUpper j hj
  · -- drained remotes dominate the new last output
    intro j hj hb hx
    rw [hlen] at hj
    rw [hpar]
    by_cases hjt : j = t
    · subst hjt
      have hg := hinv.ghostUpper j hj
      rcases hgj : g j with _ | k
      · rw [hgj] at hg
        have : (getRemote s j).docBuffer = [] := hg
        rw [hbt] at this
        simp at this
      · show optKeyLE s.params.sort (some (docKey d)) k
        rw [hgj] at hg
        exact hg d hdmem
    · rw [hne j hjt] at hb hx
      have := readySorted_empty_exhausted s hready j hj hb
      rw [this] at hx
      simp at hx
  · exact hinv.lastOutLe t htl d hdmem

theorem mergeStep_deliver_inv (s : ARMState) (g : Nat → Option (List Int))
    (lastOut : Option (List Int)) (i : Nat) (resp : CursorResponse) (s' : ARMState)
    (hinv : SortedInv s g lastOut)
    (hi : i < s.remotes.length)
    (hbuf : (getRemote s i).docBuffer = [])
    (hexh : (getRemote s i).exhausted = false)
    (hkeys : ∀ d ∈ resp.batch, d.sortKey.isSome = true)
    (hsorted : resp.batch.Pairwise (docLE s.params.sort))
    (hcont : ∀ k, g i = some k → ∀ d ∈ resp.batch, keyLE s.params.sort k (docKey d))
    (h : addBatchToBuffer (setRemote s i { getRemote s i with cursorId := resp.cursorId }) i
      resp.batch = (true, s')) :
    SortedInv s' (ghostUpdate g i resp.batch) lastOut ∧ s'.params = s.params := by
  set sMid := setRemote s i { getRemote s i with cursorId := resp.cursorId } with hsMid
  have hMidpar : sMid.params = s.params := rfl
  have hMidq : sMid.mergeQueue = s.mergeQueue := rfl
  have hMidlen : sMid.remotes.length = s.remotes.length := by
    rw [hsMid]
    simp [setRemote]
  have hiMid : i < sMid.remotes.length := by rw [hMidlen]; exact hi
  have hMidne : ∀ j, j ≠ i → getRemote sMid j = getRemote s j := by
    intro j hj
    rw [hsMid]
    exact getRemote_setRemote_ne s i j _ (fun e => hj e.symm)
  have hMidi : getRemote sMid i = { getRemote s i with cursorId := resp.cursorId } := by
    rw [hsMid]
    exact getRemote_setRemote_self s i _ hi
  have hMidbuf : ∀ j, (getRemote sMid j).docBuffer = (getRemote s j).docBuffer := by
    intro j
    by_cases hj : j = i
    · subst hj
      rw [hMidi]
    · rw [hMidne j hj]
  have hMidbufi : (getRemote sMid i).docBuffer = [] := by
    rw [hMidbuf]
    exact hbuf
  have hqMid : queueInv sMid := by
    obtain ⟨hfwd, hbwd, hnodup⟩ := hinv.queue
    refine ⟨?_, ?_, hnodup⟩
    · intro j hj
      obtain ⟨h1, h2, h3⟩ := hfwd j hj
      exact ⟨h1, by rw [hMidlen]; exact h2, by rw [hMidbuf]; exact h3⟩
    · intro j hjl hjs hjb
      rw [hMidlen] at hjl
      rw [hMidbuf] at hjb
      exact hbwd j hjl hjs hjb
  obtain ⟨hpar2, hlen2, hne2, hself2, hmq2⟩ :=
    addBatchToBuffer_true_fields sMid i resp.batch s' hiMid h
  have hpar : s'.params = s.params := hpar2
  have hlen : s'.remotes.length = s.remotes.length := by rw [hlen2, hMidlen]
  have hne : ∀ j, j ≠ i → getRemote s' j = getRemote s j := by
    intro j hj
    rw [hne2 j hj, hMidne j hj]
  have hbufi : (getRemote s' i).docBuffer = resp.batch := by
    rw [hself2]
    simp only [hMidbufi, List.nil_append]
  have hqinv' : queueInv s' := queueInv_addBatch sMid i resp.batch s' hqMid hiMid hMidbufi h
  have hexhi : (getRemote s' i).exhausted = decide (resp.cursorId = 0) := by
    rw [hself2]
    simp [RemoteCursorData.exhausted, hMidi]
  refine ⟨⟨?_, hqinv', ?_, ?_, ?_, ?_⟩, hpar⟩
  · rw [hpar]
    exact hinv.hasSort
  · intro j hj
    rw [hlen] at hj
    rw [hpar]
    by_cases hij : j = i
    · subst hij
      rw [hbufi]
      exact ⟨hkeys, hsorted⟩
    · rw [hne j hij]
      exact hinv.wf j hj
  · intro j hj d2 hd2
    rw [hlen] at hj
    rw [hpar]
    by_cases hij : j = i
    · subst hij
      rw [hbufi] at hd2
      rcases hgj : g j with _ | k
      · have hgl := hinv.ghostEmpty j hj hbuf hexh
        rw [hgj] at hgl
        have : lastOut = none := hgl
        rw [this]
        exact trivial
      · have hgl := hinv.ghostEmpty j hj hbuf hexh
        rw [hgj] at hgl
        have hlk : optKeyLE s.params.sort lastOut k := hgl
        have hkd : keyLE s.params.sort k (docKey d2) := hcont k hgj d2 hd2
        rcases lastOut with _ | x
        · exact trivial
        · exact keyLE_trans hlk hkd
    · rw [hne j hij] at hd2
      exact hinv.lastOutLe j hj d2 hd2
  · intro j hj
    rw [hlen] at hj
    rw [hpar]
    by_cases hij : j = i
    · subst hij
      rw [hbufi]
      show bufBelowGhost s.params.sort (ghostUpdate g j resp.batch j) resp.batch
      unfold ghostUpdate
      simp only [if_pos rfl]
      rcases hlk : lastKeyOf resp.batch with _ | k
      · have : resp.batch = [] := (lastKeyOf_eq_none resp.batch).mp hlk
        rw [this]
        exact bufBelowGhost_nil _ _
      · intro d2 hd2
        exact lastKeyOf_spec s.params.sort resp.batch hsorted k hlk d2 hd2
    · rw [hne j hij]
      show bufBelowGhost s.params.sort (ghostUpdate g i resp.batch j) (getRemote s j).docBuffer
      unfold ghostUpdate
      simp only [if_neg hij]
      exact hinv.ghostUpper j hj
  · intro j hj hb hx
    rw [hlen] at hj
    rw [hpar]
    by_cases hij : j = i
    · subst hij
      rw [hbufi] at hb
      show ghostAboveLast s.params.sort lastOut (ghostUpdate g j resp.batch j)
      unfold ghostUpdate
      simp only [if_pos rfl]
      rw [hb]
      show ghostAboveLast s.params.sort lastOut (g j)
      exact hinv.ghostEmpty j hj hbuf hexh
    · rw [hne j hij] at hb hx
      show ghostAboveLast s.params.sort lastOut (ghostUpdate g i resp.batch j)
      unfold ghostUpdate
      simp only [if_neg hij]
      exact hinv.ghostEmpty j hj hb hx

theorem mergeRun_inv (s : ARMState) (g : Nat → Option (List Int)) (out : List BSONDoc)
    (s' : ARMState) (g' : Nat → Option (List Int))
    (hrun : MergeRun s g out s' g') :
    ∀ lastOut, SortedInv s g lastOut →
      ∃ lastOut', SortedInv s' g' lastOut' ∧
        outChain s.params.sort lastOut out lastOut' ∧ s'.params = s.params := by
  induction hrun with
  | refl s g => exact fun lo h => ⟨lo, h, rfl, rfl⟩
  | step hstep hrun2 ih =>
    intro lo hinv
    cases hstep with
    | extract d s1 hready hnr =>
      obtain ⟨hinv1, hle, hpar1⟩ := mergeStep_extract_inv _ _ lo d _ hinv hready hnr
      obtain ⟨lo2, hinv2, hchain2, hpar2⟩ := ih (some (docKey d)) hinv1
      rw [hpar1] at hchain2
      refine ⟨lo2, hinv2, ?_, by rw [hpar2, hpar1]⟩
      exact outChain_append _ [d] lo (some (docKey d)) lo2 _ ⟨hle, rfl⟩ hchain2
    | deliver i resp s1 hi hbuf hexh hkeys hsorted hcont hadd =>
      obtain ⟨hinv1, hpar1⟩ :=
        mergeStep_deliver_inv _ _ lo i resp _ hinv hi hbuf hexh hkeys hsorted hcont hadd
      obtain ⟨lo2, hinv2, hchain2, hpar2⟩ := ih lo hinv1
      rw [hpar1] at hchain2
      exact ⟨lo2, hinv2, hchain2, by rw [hpar2, hpar1]⟩

/-- C5: in sorted mode, along any run of the engine in which every batch a
remote delivers is sorted, carries sort keys and continues that remote's
stream past its previously delivered keys, the documents produced by
successive `_nextReadySorted` extractions (performed under `_readySorted`)
form a globally non-decreasing sequence under the configured ordering: any
two consecutive documents produced satisfy `prev ≤ next`. -/
theorem c5_sorted_merge_monotonic (s : ARMState) (g : Nat → Option (List Int))
    (lastOut : Option (List Int)) (out : List BSONDoc) (s' : ARMState)
    (g' : Nat → Option (List Int)) (hinv : SortedInv s g lastOut)
    (hrun : MergeRun s g out s' g') :
    out.Chain' (docLE s.params.sort) := by
  obtain ⟨lo2, _, hchain, _⟩ := mergeRun_inv s g out s' g' hrun lastOut hinv
  exact outChain_chain s.params.sort out lastOut lo2 hchain

def c5Doc : BSONDoc := { payload := 4, sortKey := some [5] }

def c5State : ARMState :=
  { params :=
      { sort := [1], batchSize := none, tailableMode := .kNormal,
        isAllowPartialResults := false },
    remotes :=
      [{ cursorId := 3, docBuffer := [c5Doc], cbHandleValid := false, fetchedCount := 1,
         status := .ok }],
    lifecycleState := .kAlive, eofNext := false, status := .ok, gettingFromRemote := 0,
    mergeQueue := [0], currentEvent := none, killCursorsScheduledEvent := none,
    executor :=
      { shuttingDown := false, nextEventId := 0, signalled := [], scheduledCommands := [] } }

def c5Ghost : Nat → Option (List Int) := fun _ => some [5]

theorem c5_inv_concrete : SortedInv c5State c5Ghost none := by
  have hlen : c5State.remotes.length = 1 := rfl
  refine ⟨by decide, ⟨by decide, by decide, by decide⟩, ?_, ?_, ?_, ?_⟩
  · intro i hi
    rw [hlen] at hi
    have h0 : i = 0 := by omega
    subst h0
    exact ⟨by decide, List.pairwise_singleton _ _⟩
  · intro i hi d hd
    exact trivial
  · intro i hi
    rw [hlen] at hi
    have h0 : i = 0 := by omega
    subst h0
    intro d hd
    have : d = c5Doc := by simpa [getRemote, c5State] using hd
    subst this
    decide
  · intro i hi hb hx
    rw [hlen] at hi
    have h0 : i = 0 := by omega
    subst h0
    exact absurd hb (by decide)

/-- Witness for C5 at a concrete one-remote run performing one extraction. -/
theorem c5_sorted_merge_monotonic_witness :
    List.Chain' (docLE c5State.params.sort) [c5Doc] :=
  c5_sorted_merge_monotonic c5State c5Ghost none [c5Doc]
    (nextReadySorted c5State).2 c5Ghost c5_inv_concrete
    (MergeRun.step
      (MergeStep.extract c5State c5Ghost c5Doc (nextReadySorted c5State).2
        (by decide) (by decide))
      (MergeRun.refl _ _))
